import Mathlib

/-!
Shallow embedding of `market_place.py`: a second-hand marketplace
controller over four in-memory tables (users, items, listings, orders),
with flat-file row serialization.  Python dicts are modelled as
insertion-ordered association lists with string keys; Python floats that
hold monetary values are modelled as rationals with explicit half-even
rounding to two decimals (the behaviour of Python `round(x, 2)` on the
exact decimal values the program manipulates); Python `ValueError`s are
modelled as an error enumeration with one constructor per distinct raise
message.  Random `generate_id` draws are modelled as parameters
constrained by the predicate `genId` (a 6-digit decimal string not
already a key of the target table).
-/

set_option maxHeartbeats 1000000

namespace Mkt

/-! ### String tools (title_case, parse_bool, bool_str) -/

/-- Model of Python `str.lower()` (character-wise lower-casing). -/
def lowerStr (s : String) : String := String.mk (s.data.map Char.toLower)

/-- Model of Python `str.upper()` (character-wise upper-casing). -/
def upperStr (s : String) : String := String.mk (s.data.map Char.toUpper)

/-- Model of Python `str.strip()`: drop leading and trailing whitespace. -/
def stripStr (s : String) : String :=
  String.mk (((s.data.dropWhile Char.isWhitespace).reverse.dropWhile
    Char.isWhitespace).reverse)

/-- Model of Python `str.split()` with no argument: maximal runs of
non-whitespace characters (empty pieces never occur).  The accumulator
holds the current word reversed. -/
def wordsAux : List Char → List Char → List (List Char)
  | [], acc => if acc = [] then [] else [acc.reverse]
  | c :: cs, acc =>
    if c.isWhitespace then
      if acc = [] then wordsAux cs [] else acc.reverse :: wordsAux cs []
    else wordsAux cs (c :: acc)

/-- Python `s.strip().split()` (stripping first changes nothing for `split()`). -/
def pyWords (s : String) : List (List Char) := wordsAux s.data []

/-- Python `str.capitalize()`: first character upper-cased, the rest lower-cased. -/
def pyCapitalize : List Char → List Char
  | [] => []
  | c :: cs => c.toUpper :: cs.map Char.toLower

/-- Source `title_case(s)`: `" ".join(word.capitalize() for word in s.strip().split())`. -/
def title_case (s : String) : String :=
  String.intercalate " " ((pyWords s).map (fun w => String.mk (pyCapitalize w)))

/-- Source `parse_bool(s)`: `str(s).strip().lower() in ("true", "1", "yes", "y")`. -/
def parse_bool (s : String) : Bool :=
  let t := lowerStr (stripStr s)
  t == "true" || t == "1" || t == "yes" || t == "y"

/-- Source `bool_str(b)`: `"True" if b else "False"`. -/
def bool_str (b : Bool) : String := if b then "True" else "False"

/-! ### Decimal rendering and parsing (models of Python str/int/float/format) -/

/-- Decimal digit to character. -/
def digitChar (d : ℕ) : Char := Char.ofNat (48 + d)

/-- Fuel-driven decimal rendering of a natural number (most significant first). -/
def natToChars : ℕ → ℕ → List Char
  | 0, _ => []
  | fuel + 1, n =>
    if n < 10 then [digitChar n]
    else natToChars fuel (n / 10) ++ [digitChar (n % 10)]

/-- Decimal rendering of a natural number, model of Python `str` on a non-negative int. -/
def natToString (n : ℕ) : String := String.mk (natToChars (n + 1) n)

/-- Model of Python `str` on an int (possibly negative). -/
def intToString (i : ℤ) : String :=
  if i < 0 then String.mk ('-' :: natToChars (i.natAbs + 1) i.natAbs)
  else natToString i.natAbs

/-- Numeric value of a list of decimal digit characters (the core of Python `int(s)`). -/
def parseDigits (cs : List Char) : ℕ :=
  cs.foldl (fun acc c => 10 * acc + (c.toNat - 48)) 0

/-- Model of Python `int(s)` on the canonical strings produced by `intToString`. -/
def parseInt (s : String) : ℤ :=
  match s.data with
  | [] => 0
  | c :: cs => if c = '-' then -(parseDigits cs : ℤ) else (parseDigits (c :: cs) : ℤ)

/-- Round to the nearest integer, ties to even: the rounding mode of Python `round`. -/
def roundHalfEven (x : ℚ) : ℤ :=
  if x - ⌊x⌋ < 1 / 2 then ⌊x⌋
  else if 1 / 2 < x - ⌊x⌋ then ⌊x⌋ + 1
  else if ⌊x⌋ % 2 = 0 then ⌊x⌋ else ⌊x⌋ + 1

/-- Model of Python `round(x, 2)` on the exact values the program computes. -/
def round2 (x : ℚ) : ℚ := (roundHalfEven (x * 100) : ℚ) / 100

/-- A rational is a two-decimal value (an integer number of hundredths). -/
def twoDec (x : ℚ) : Prop := ∃ k : ℤ, x = (k : ℚ) / 100

/-- The two fraction digits of `f"{x:.2f}"`. -/
def twoFracChars (k : ℕ) : List Char := [digitChar (k / 10), digitChar (k % 10)]

/-- Character rendering of `k` hundredths (`k ≥ 0`) as `intpart.dd`. -/
def moneyChars (k : ℕ) : List Char :=
  natToChars (k / 100 + 1) (k / 100) ++ '.' :: twoFracChars (k % 100)

/-- Model of the Python f-string `f"{x:.2f}"`. -/
def formatMoney (x : ℚ) : String :=
  if roundHalfEven (x * 100) < 0 then
    String.mk ('-' :: moneyChars (roundHalfEven (x * 100)).natAbs)
  else String.mk (moneyChars (roundHalfEven (x * 100)).natAbs)

/-- Value of a fraction-digit block. -/
def parseFrac (cs : List Char) : ℚ := (parseDigits cs : ℚ) / 10 ^ cs.length

/-- Value of an unsigned decimal char sequence with optional point. -/
def parseUnsignedMoney (cs : List Char) : ℚ :=
  match cs.dropWhile (fun c => c ≠ '.') with
  | [] => (parseDigits cs : ℚ)
  | _ :: frac => (parseDigits (cs.takeWhile (fun c => c ≠ '.')) : ℚ) + parseFrac frac

/-- Model of Python `float(s)` on the canonical decimal strings the program writes. -/
def parseMoney (s : String) : ℚ :=
  match s.data with
  | [] => 0
  | c :: cs => if c = '-' then -parseUnsignedMoney cs else parseUnsignedMoney (c :: cs)

/-! ### Constants of the source -/

/-- The eight categories. -/
def CATEGORIES : List String :=
  ["Electronics", "Books", "Furniture", "Fashion", "Sports", "Home", "Toys", "Others"]

/-- The five conditions. -/
def CONDITIONS : List String :=
  ["NEW", "LIKE_NEW", "VERY_GOOD", "GOOD", "ACCEPTABLE"]

/-- Category price baselines. -/
def CATEGORY_BASELINE : List (String × ℚ) :=
  [("Electronics", 300), ("Books", 20), ("Furniture", 150), ("Fashion", 50),
   ("Sports", 80), ("Home", 60), ("Toys", 25), ("Others", 40)]

/-- Condition price multipliers. -/
def CONDITION_MULTIPLIER : List (String × ℚ) :=
  [("NEW", 1), ("LIKE_NEW", 9 / 10), ("VERY_GOOD", 8 / 10),
   ("GOOD", 13 / 20), ("ACCEPTABLE", 1 / 2)]

/-! ### Tables: insertion-ordered string-keyed maps (model of Python dict) -/

/-- A table is an insertion-ordered association list with string keys. -/
abbrev Table (α : Type) : Type := List (String × α)

/-- Dictionary lookup (`d.get(k)` / `d[k]`). -/
def Table.find? {α : Type} (t : Table α) (k : String) : Option α :=
  match t with
  | [] => none
  | (k2, v) :: rest => if k2 = k then some v else Table.find? rest k

/-- Dictionary assignment `d[k] = v`: replaces in place if the key exists,
appends at the end otherwise (Python dict insertion-order semantics). -/
def Table.insert {α : Type} (t : Table α) (k : String) (v : α) : Table α :=
  match t with
  | [] => [(k, v)]
  | (k2, v2) :: rest =>
    if k2 = k then (k, v) :: rest else (k2, v2) :: Table.insert rest k v

/-- The key list of a table. -/
def Table.keys {α : Type} (t : Table α) : List String := t.map Prod.fst

/-- The value list of a table (`d.values()`). -/
def Table.values {α : Type} (t : Table α) : List α := t.map Prod.snd

/-! ### Entities and their flat-file rows -/

/-- User entity. -/
structure User where
  id : String
  username : String
  password : String
deriving Repr, DecidableEq

/-- A row of `users.csv`. -/
structure UserRow where
  user_id : String
  username : String
  password : String
deriving Repr, DecidableEq

/-- Source `User.to_row`. -/
def User.to_row (u : User) : UserRow :=
  ⟨u.id, u.username, u.password⟩

/-- Source `user_from_row`. -/
def user_from_row (row : UserRow) : User :=
  ⟨row.user_id, row.username, row.password⟩

/-- Item entity. -/
structure Item where
  id : String
  name : String
  category : String
  brand : String
  condition : String
  description : String
deriving Repr, DecidableEq

/-- A row of `items.csv`. -/
structure ItemRow where
  item_id : String
  name : String
  category : String
  brand : String
  condition : String
  description : String
deriving Repr, DecidableEq

/-- Source `Item.to_row`. -/
def Item.to_row (it : Item) : ItemRow :=
  ⟨it.id, it.name, it.category, it.brand, it.condition, it.description⟩

/-- Source `item_from_row`. -/
def item_from_row (row : ItemRow) : Item :=
  ⟨row.item_id, row.name, row.category, row.brand, row.condition, row.description⟩

/-- Listing entity; `price` is a rational (Python float holding money),
`quantity` an integer (Python int). -/
structure Listing where
  id : String
  item_id : String
  seller_id : String
  price : ℚ
  quantity : ℤ
  active : Bool
  deleted : Bool
deriving Repr, DecidableEq

/-- A row of `listings.csv`. -/
structure ListingRow where
  listing_id : String
  item_id : String
  seller_id : String
  price : String
  quantity : String
  active : String
  deleted : String
deriving Repr, DecidableEq

/-- Source `Listing.to_row`: money rendered with two decimals, ints with `str`,
booleans with `bool_str`. -/
def Listing.to_row (l : Listing) : ListingRow :=
  ⟨l.id, l.item_id, l.seller_id, formatMoney l.price, intToString l.quantity,
   bool_str l.active, bool_str l.deleted⟩

/-- Source `listing_from_row`: `float(row.get("price", "0") or 0)` defaults an
absent or empty field to zero; booleans go through `parse_bool`. -/
def listing_from_row (row : ListingRow) : Listing :=
  ⟨row.listing_id, row.item_id, row.seller_id,
   if row.price = "" then 0 else parseMoney row.price,
   if row.quantity = "" then 0 else parseInt row.quantity,
   parse_bool row.active, parse_bool row.deleted⟩

/-- Order entity. -/
structure Order where
  id : String
  buyer_id : String
  seller_id : String
  listing_id : String
  unit_price : ℚ
  quantity : ℤ
  total_price : ℚ
  status : String
deriving Repr, DecidableEq

/-- A row of `orders.csv`. -/
structure OrderRow where
  order_id : String
  buyer_id : String
  seller_id : String
  listing_id : String
  unit_price : String
  quantity : String
  total_price : String
  status : String
deriving Repr, DecidableEq

/-- Source `Order.to_row`. -/
def Order.to_row (o : Order) : OrderRow :=
  ⟨o.id, o.buyer_id, o.seller_id, o.listing_id, formatMoney o.unit_price,
   intToString o.quantity, formatMoney o.total_price, o.status⟩

/-- Source `order_from_row`. -/
def order_from_row (row : OrderRow) : Order :=
  ⟨row.order_id, row.buyer_id, row.seller_id, row.listing_id,
   if row.unit_price = "" then 0 else parseMoney row.unit_price,
   if row.quantity = "" then 0 else parseInt row.quantity,
   if row.total_price = "" then 0 else parseMoney row.total_price,
   row.status⟩

/-! ### The controller state and its errors -/

/-- The four in-memory tables of the `Marketplace` controller. -/
structure Marketplace where
  users : Table User
  items : Table Item
  listings : Table Listing
  orders : Table Order
deriving Repr, DecidableEq

/-- The initial controller state: four empty tables. -/
def emptyMarketplace : Marketplace := ⟨[], [], [], []⟩

/-- The distinct `ValueError` messages of the source, one constructor each.
The spec names them: ValidationError = `emptyCredentials` /
`unknownCategory` / `unknownCondition` / `nonPositivePriceOrQuantity` /
`invalidQuantity`; ConflictError = `usernameExists`; NotFoundError =
`listingNotFound`; AuthorizationError = `notOwner`; UnavailableError =
`listingNotAvailable`. -/
inductive MarketError where
  | emptyCredentials
  | usernameExists
  | unknownCategory
  | unknownCondition
  | nonPositivePriceOrQuantity
  | listingNotFound
  | notOwner
  | listingNotAvailable
  | invalidQuantity
deriving Repr, DecidableEq

/-! ### Operations.  Each mutating operation also returns the resulting
state; the error branches return the input state unchanged, which is
faithful to the source because every `raise` there precedes the first
mutation.  Fresh random ids from `generate_id` enter as parameters. -/

/-- Source `Marketplace.register`. -/
def register (m : Marketplace) (user_id username password : String) :
    Except MarketError User × Marketplace :=
  let user_name := title_case username
  if user_name = "" ∨ password = "" then (.error .emptyCredentials, m)
  else if (Table.values m.users).any (fun u => lowerStr u.username == lowerStr user_name) then
    (.error .usernameExists, m)
  else
    let user : User := ⟨user_id, user_name, password⟩
    (.ok user, { m with users := Table.insert m.users user_id user })

/-- Source `Marketplace.login`: first user (in insertion order) whose
title-cased username and exact password match, else `none`. -/
def login (m : Marketplace) (username password : String) : Option User :=
  let uname := title_case username
  (Table.values m.users).find? (fun u => u.username == uname && u.password == password)

/-- Source `Marketplace.post_listing`. -/
def post_listing (m : Marketplace) (item_id listing_id : String) (seller : User)
    (name category brand condition description : String) (price : ℚ) (quantity : ℤ) :
    Except MarketError Listing × Marketplace :=
  let cat := title_case category
  let cond_up := upperStr (stripStr condition)
  if cat ∉ CATEGORIES then (.error .unknownCategory, m)
  else if cond_up ∉ CONDITIONS then (.error .unknownCondition, m)
  else if price ≤ 0 ∨ quantity ≤ 0 then (.error .nonPositivePriceOrQuantity, m)
  else
    let item : Item :=
      ⟨item_id, title_case name, cat, title_case brand, cond_up, title_case description⟩
    let listing : Listing :=
      ⟨listing_id, item_id, seller.id, round2 price, quantity, true, false⟩
    (.ok listing,
      { m with items := Table.insert m.items item_id item,
               listings := Table.insert m.listings listing_id listing })

/-- Source `Marketplace.delete_listing`. -/
def delete_listing (m : Marketplace) (seller : User) (listing_id : String) :
    Except MarketError Unit × Marketplace :=
  match Table.find? m.listings listing_id with
  | none => (.error .listingNotFound, m)
  | some listing =>
    if listing.seller_id ≠ seller.id then (.error .notOwner, m)
    else
      let listing2 : Listing := { listing with deleted := true, active := false }
      (.ok (), { m with listings := Table.insert m.listings listing_id listing2 })

/-- Source `Marketplace.search_by_category`: the listing values, in table
order, that are not deleted, active, have positive quantity, and whose
item has the title-cased category.  (A listing whose `item_id` is not in
the items table would raise `KeyError` in the source; such dangling
references never arise in reachable states.) -/
def search_by_category (m : Marketplace) (category : String) : List Listing :=
  let cat := title_case category
  (Table.values m.listings).filter (fun listing =>
    !listing.deleted && listing.active && decide (0 < listing.quantity) &&
      ((Table.find? m.items listing.item_id).map Item.category == some cat))

/-- Source `Marketplace.search_by_full_name`. -/
def search_by_full_name (m : Marketplace) (full_name : String) : List Listing :=
  let target := title_case full_name
  (Table.values m.listings).filter (fun listing =>
    !listing.deleted && listing.active && decide (0 < listing.quantity) &&
      ((Table.find? m.items listing.item_id).map Item.name == some target))

/-- Source `Marketplace.price_suggestion`. -/
def price_suggestion (category condition : String) : ℚ × ℚ × ℚ :=
  let cat := title_case category
  let baseline := (Table.find? CATEGORY_BASELINE cat).getD
    ((Table.find? CATEGORY_BASELINE "Others").getD 0)
  let multiplier :=
    (Table.find? CONDITION_MULTIPLIER (upperStr (stripStr condition))).getD (13 / 20)
  let suggestion_price := round2 (baseline * multiplier)
  (suggestion_price,
   round2 (suggestion_price * (9 / 10)),
   round2 (suggestion_price * (11 / 10)))

/-- Source `Marketplace.buy_listing`. -/
def buy_listing (m : Marketplace) (order_id : String) (buyer : User)
    (listing_id : String) (quantity : ℤ) :
    Except MarketError Order × Marketplace :=
  match Table.find? m.listings listing_id with
  | none => (.error .listingNotFound, m)
  | some listing =>
    if listing.deleted = true ∨ listing.active = false ∨ listing.quantity ≤ 0 then
      (.error .listingNotAvailable, m)
    else if quantity ≤ 0 ∨ listing.quantity < quantity then
      (.error .invalidQuantity, m)
    else
      let order : Order :=
        ⟨order_id, buyer.id, listing.seller_id, listing.id, listing.price,
         quantity, round2 (listing.price * (quantity : ℚ)), "COMPLETED"⟩
      let new_quantity := listing.quantity - quantity
      let listing2 : Listing :=
        { listing with quantity := new_quantity,
                       active := if new_quantity ≤ 0 then false else listing.active }
      (.ok order,
        { m with orders := Table.insert m.orders order_id order,
                 listings := Table.insert m.listings listing_id listing2 })

/-! ### Persistence: `save_all_csv` / `load_all_csv` at the row level.
Saving writes every current entity as a row, in table order (a full
snapshot); loading clears the table and re-inserts each row keyed by its
primary key, skipping rows whose primary key is falsy (empty). -/

/-- Rows written for the users table. -/
def save_users (t : Table User) : List UserRow := (Table.values t).map User.to_row

/-- Rows written for the items table. -/
def save_items (t : Table Item) : List ItemRow := (Table.values t).map Item.to_row

/-- Rows written for the listings table. -/
def save_listings (t : Table Listing) : List ListingRow :=
  (Table.values t).map Listing.to_row

/-- Rows written for the orders table. -/
def save_orders (t : Table Order) : List OrderRow := (Table.values t).map Order.to_row

/-- Load the users table from rows (`_load_csv` with `user_from_row`). -/
def load_users (rows : List UserRow) : Table User :=
  rows.foldl (fun dst row =>
    if row.user_id = "" then dst else Table.insert dst row.user_id (user_from_row row)) []

/-- Load the items table from rows. -/
def load_items (rows : List ItemRow) : Table Item :=
  rows.foldl (fun dst row =>
    if row.item_id = "" then dst else Table.insert dst row.item_id (item_from_row row)) []

/-- Load the listings table from rows. -/
def load_listings (rows : List ListingRow) : Table Listing :=
  rows.foldl (fun dst row =>
    if row.listing_id = "" then dst
    else Table.insert dst row.listing_id (listing_from_row row)) []

/-- Load the orders table from rows. -/
def load_orders (rows : List OrderRow) : Table Order :=
  rows.foldl (fun dst row =>
    if row.order_id = "" then dst else Table.insert dst row.order_id (order_from_row row)) []

/-- The content of the four backing files. -/
structure Snapshot where
  users : List UserRow
  items : List ItemRow
  listings : List ListingRow
  orders : List OrderRow
deriving Repr, DecidableEq

/-- Source `Marketplace.save_all_csv`: full snapshot of the four tables. -/
def save_all_csv (m : Marketplace) : Snapshot :=
  ⟨save_users m.users, save_items m.items, save_listings m.listings, save_orders m.orders⟩

/-- Source `Marketplace.load_all_csv`: replace all four tables from the files. -/
def load_all_csv (s : Snapshot) : Marketplace :=
  ⟨load_users s.users, load_items s.items, load_listings s.listings, load_orders s.orders⟩

/-! ### Reachability: the controller operations as a step relation -/

/-- Constraint satisfied by every value returned by the source
`generate_id(existing)`: the decimal rendering of a number drawn from
100000..999999, not already a key of the target table. -/
def genId {α : Type} (t : Table α) (id : String) : Prop :=
  (∃ n : ℕ, 100000 ≤ n ∧ n ≤ 999999 ∧ id = natToString n) ∧ Table.find? t id = none

/-- One successful mutating controller operation (failed operations leave
the state unchanged, and the read-only operations never change it). -/
inductive Step : Marketplace → Marketplace → Prop where
  | step_register (m : Marketplace) (uid username password : String) (u : User)
      (m2 : Marketplace) :
      genId m.users uid → register m uid username password = (.ok u, m2) → Step m m2
  | step_post (m : Marketplace) (iid lid : String) (seller : User)
      (name category brand condition description : String) (price : ℚ) (quantity : ℤ)
      (l : Listing) (m2 : Marketplace) :
      genId m.items iid → genId m.listings lid →
      post_listing m iid lid seller name category brand condition description price quantity
        = (.ok l, m2) →
      Step m m2
  | step_delete (m : Marketplace) (seller : User) (lid : String) (m2 : Marketplace) :
      delete_listing m seller lid = (.ok (), m2) → Step m m2
  | step_buy (m : Marketplace) (oid : String) (buyer : User) (lid : String) (q : ℤ)
      (o : Order) (m2 : Marketplace) :
      genId m.orders oid → buy_listing m oid buyer lid q = (.ok o, m2) → Step m m2

/-- Any finite sequence of successful operations. -/
def Steps : Marketplace → Marketplace → Prop := Relation.ReflTransGen Step

/-- States reachable from the initial empty state. -/
def Reachable (m : Marketplace) : Prop := Steps emptyMarketplace m

/-! ### Table lemmas -/

theorem Table.find?_insert {α : Type} (t : Table α) (k k2 : String) (v : α) :
    Table.find? (Table.insert t k v) k2 = if k = k2 then some v else Table.find? t k2 := by
  induction t with
  | nil => simp [Table.insert, Table.find?]
  | cons p rest ih =>
    obtain ⟨k3, v3⟩ := p
    by_cases h3 : k3 = k
    · subst h3
      by_cases h2 : k3 = k2
      · subst h2; simp [Table.insert, Table.find?]
      · simp [Table.insert, Table.find?, h2]
    · by_cases h2 : k3 = k2
      · subst h2
        have hk : ¬ k = k3 := fun h => h3 h.symm
        simp [Table.insert, h3, Table.find?, hk]
      · simp [Table.insert, h3, Table.find?, h2, ih]

theorem Table.find?_eq_none_iff {α : Type} (t : Table α) (k : String) :
    Table.find? t k = none ↔ k ∉ Table.keys t := by
  induction t with
  | nil => simp [Table.find?, Table.keys]
  | cons p rest ih =>
    obtain ⟨k2, v2⟩ := p
    by_cases h : k2 = k
    · subst h; simp [Table.find?, Table.keys]
    · have hkeys : Table.keys ((k2, v2) :: rest) = k2 :: Table.keys rest := rfl
      have hfind : Table.find? ((k2, v2) :: rest) k = Table.find? rest k := by
        simp [Table.find?, h]
      rw [hkeys, hfind, ih, List.mem_cons]
      constructor
      · intro h1 h2
        rcases h2 with h2 | h2
        · exact h h2.symm
        · exact h1 h2
      · intro h1 h2
        exact h1 (Or.inr h2)

theorem Table.mem_of_find?_eq_some {α : Type} {t : Table α} {k : String} {v : α}
    (h : Table.find? t k = some v) : (k, v) ∈ t := by
  induction t with
  | nil => simp [Table.find?] at h
  | cons p rest ih =>
    obtain ⟨k2, v2⟩ := p
    by_cases h2 : k2 = k
    · subst h2
      simp [Table.find?] at h
      simp [h]
    · simp [Table.find?, h2] at h
      simp [ih h]

theorem Table.insert_of_find?_none {α : Type} {t : Table α} {k : String} (v : α)
    (h : Table.find? t k = none) : Table.insert t k v = t ++ [(k, v)] := by
  induction t with
  | nil => simp [Table.insert]
  | cons p rest ih =>
    obtain ⟨k2, v2⟩ := p
    by_cases h2 : k2 = k
    · subst h2; simp [Table.find?] at h
    · simp [Table.find?, h2] at h
      simp [Table.insert, h2, ih h]

theorem Table.mem_insert {α : Type} {t : Table α} {k : String} {v : α} {p : String × α}
    (h : p ∈ Table.insert t k v) : p ∈ t ∨ p = (k, v) := by
  induction t with
  | nil => simp [Table.insert] at h; simp [h]
  | cons q rest ih =>
    obtain ⟨k2, v2⟩ := q
    by_cases h2 : k2 = k
    · subst h2
      simp [Table.insert] at h
      rcases h with h | h
      · right; simp [h]
      · left; simp [h]
    · simp [Table.insert, h2] at h
      rcases h with h | h
      · left; simp [h]
      · rcases ih h with h3 | h3
        · left; simp [h3]
        · right; exact h3

theorem Table.keys_insert_of_find?_none {α : Type} {t : Table α} {k : String} (v : α)
    (h : Table.find? t k = none) :
    Table.keys (Table.insert t k v) = Table.keys t ++ [k] := by
  rw [Table.insert_of_find?_none v h]
  simp [Table.keys]

theorem Table.keys_insert_of_find?_some {α : Type} {t : Table α} {k : String} {v2 : α} (v : α)
    (h : Table.find? t k = some v2) :
    Table.keys (Table.insert t k v) = Table.keys t := by
  induction t with
  | nil => simp [Table.find?] at h
  | cons p rest ih =>
    obtain ⟨k2, v3⟩ := p
    by_cases h2 : k2 = k
    · subst h2; simp [Table.insert, Table.keys]
    · simp [Table.find?, h2] at h
      simp [Table.insert, h2, Table.keys] at ih ⊢
      exact ih h

theorem Table.nodup_keys_insert {α : Type} {t : Table α} {k : String} (v : α)
    (hnd : (Table.keys t).Nodup) : (Table.keys (Table.insert t k v)).Nodup := by
  cases hf : Table.find? t k with
  | none =>
    rw [Table.keys_insert_of_find?_none v hf]
    have hk : k ∉ Table.keys t := (Table.find?_eq_none_iff t k).mp hf
    simp [List.nodup_append, hnd, hk]
  | some v2 => rw [Table.keys_insert_of_find?_some v hf]; exact hnd

theorem Table.find?_append_of_none {α : Type} {t1 : Table α} (t2 : Table α) {k : String}
    (h : Table.find? t1 k = none) : Table.find? (t1 ++ t2) k = Table.find? t2 k := by
  induction t1 with
  | nil => simp
  | cons p rest ih =>
    obtain ⟨k2, v2⟩ := p
    by_cases h2 : k2 = k
    · subst h2; simp [Table.find?] at h
    · simp [Table.find?, h2] at h ⊢
      exact ih h

theorem Table.values_insert_of_find?_none {α : Type} {t : Table α} {k : String} (v : α)
    (h : Table.find? t k = none) :
    Table.values (Table.insert t k v) = Table.values t ++ [v] := by
  rw [Table.insert_of_find?_none v h]
  simp [Table.values]

/-! ### Decimal codec lemmas -/

theorem digitChar_toNat {d : ℕ} (h : d < 10) : (digitChar d).toNat = 48 + d := by
  interval_cases d <;> decide

theorem digitChar_isDigitChar {d : ℕ} (h : d < 10) :
    digitChar d ≠ '.' ∧ digitChar d ≠ '-' := by
  interval_cases d <;> decide

theorem mem_natToChars {fuel n : ℕ} {c : Char} (h : c ∈ natToChars fuel n) :
    ∃ d, d < 10 ∧ c = digitChar d := by
  induction fuel generalizing n with
  | zero => simp [natToChars] at h
  | succ fuel ih =>
    by_cases h10 : n < 10
    · simp [natToChars, h10] at h
      exact ⟨n, h10, h⟩
    · simp [natToChars, h10] at h
      rcases h with h | h
      · exact ih h
      · exact ⟨n % 10, Nat.mod_lt _ (by omega), h⟩

theorem natToChars_ne_nil {fuel n : ℕ} (h : 0 < fuel) : natToChars fuel n ≠ [] := by
  cases fuel with
  | zero => omega
  | succ fuel =>
    by_cases h10 : n < 10 <;> simp [natToChars, h10]

theorem parseDigits_append (l : List Char) (c : Char) :
    parseDigits (l ++ [c]) = 10 * parseDigits l + (c.toNat - 48) := by
  simp [parseDigits, List.foldl_append]

theorem parseDigits_natToChars {fuel n : ℕ} (h : n < fuel) :
    parseDigits (natToChars fuel n) = n := by
  induction fuel generalizing n with
  | zero => omega
  | succ fuel ih =>
    by_cases h10 : n < 10
    · simp [natToChars, h10, parseDigits, digitChar_toNat h10]
    · have hdiv : n / 10 < fuel := by
        have h1 : n / 10 < n := Nat.div_lt_self (by omega) (by omega)
        omega
      rw [natToChars]
      simp only [h10, if_false]
      rw [parseDigits_append, ih hdiv, digitChar_toNat (Nat.mod_lt _ (by omega))]
      omega

theorem natToString_ne_empty (n : ℕ) : natToString n ≠ "" := by
  intro h
  have hd : (natToString n).data = natToChars (n + 1) n := rfl
  rw [h] at hd
  exact natToChars_ne_nil (by omega) hd.symm

theorem parseMk_of_head_digit {c : Char} {cs : List Char}
    (hc : c ≠ '-') : parseInt (String.mk (c :: cs)) = (parseDigits (c :: cs) : ℤ) := by
  show (if c = '-' then -(parseDigits cs : ℤ) else (parseDigits (c :: cs) : ℤ))
    = (parseDigits (c :: cs) : ℤ)
  simp [hc]

theorem parseInt_intToString (i : ℤ) : parseInt (intToString i) = i := by
  by_cases h : i < 0
  · have he : intToString i = String.mk ('-' :: natToChars (i.natAbs + 1) i.natAbs) := by
      simp [intToString, h]
    rw [he]
    show (if ('-' : Char) = '-' then -(parseDigits (natToChars (i.natAbs + 1) i.natAbs) : ℤ)
      else (parseDigits ('-' :: natToChars (i.natAbs + 1) i.natAbs) : ℤ)) = i
    rw [if_pos rfl, parseDigits_natToChars (by omega)]
    omega
  · have he : intToString i = String.mk (natToChars (i.natAbs + 1) i.natAbs) := by
      simp [intToString, h, natToString]
    cases he2 : natToChars (i.natAbs + 1) i.natAbs with
    | nil => exact absurd he2 (natToChars_ne_nil (by omega))
    | cons c cs =>
      have hc : c ≠ '-' := by
        have hm : c ∈ natToChars (i.natAbs + 1) i.natAbs := by rw [he2]; simp
        obtain ⟨d, hd, hce⟩ := mem_natToChars hm
        rw [hce]
        exact (digitChar_isDigitChar hd).2
      rw [he, he2, parseMk_of_head_digit hc, ← he2, parseDigits_natToChars (by omega)]
      omega

/-! ### Rounding lemmas -/

theorem roundHalfEven_intCast (k : ℤ) : roundHalfEven (k : ℚ) = k := by
  unfold roundHalfEven
  norm_num

theorem roundHalfEven_nonneg {x : ℚ} (h : 0 ≤ x) : 0 ≤ roundHalfEven x := by
  unfold roundHalfEven
  have hf : 0 ≤ ⌊x⌋ := Int.floor_nonneg.mpr h
  split_ifs <;> omega

theorem round2_twoDec (x : ℚ) : twoDec (round2 x) := ⟨roundHalfEven (x * 100), rfl⟩

theorem round2_nonneg {x : ℚ} (h : 0 ≤ x) : 0 ≤ round2 x := by
  unfold round2
  have h1 : 0 ≤ roundHalfEven (x * 100) := roundHalfEven_nonneg (by positivity)
  have h2 : (0 : ℚ) ≤ (roundHalfEven (x * 100) : ℚ) := by exact_mod_cast h1
  positivity

theorem roundHalfEven_mul_hundred {x : ℚ} {k : ℤ} (h : x = (k : ℚ) / 100) :
    roundHalfEven (x * 100) = k := by
  have h2 : x * 100 = (k : ℚ) := by rw [h]; ring
  rw [h2, roundHalfEven_intCast]

theorem round2_of_twoDec {x : ℚ} (h : twoDec x) : round2 x = x := by
  obtain ⟨k, hk⟩ := h
  unfold round2
  rw [roundHalfEven_mul_hundred hk, hk]

/-! ### Money string round-trip -/

theorem mk_ne_empty {l : List Char} (h : l ≠ []) : String.mk l ≠ "" := by
  intro he
  exact h (congrArg String.data he)

theorem moneyChars_ne_nil (k : ℕ) : moneyChars k ≠ [] := by
  simp [moneyChars]

theorem formatMoney_ne_empty (x : ℚ) : formatMoney x ≠ "" := by
  unfold formatMoney
  split_ifs
  · apply mk_ne_empty; simp
  · exact mk_ne_empty (moneyChars_ne_nil _)

theorem intToString_ne_empty (i : ℤ) : intToString i ≠ "" := by
  unfold intToString
  split_ifs
  · apply mk_ne_empty; simp
  · exact natToString_ne_empty _

theorem parse_bool_bool_str (b : Bool) : parse_bool (bool_str b) = b := by
  cases b <;> decide

theorem takeWhile_dropWhile_append {p : Char → Bool} (l r : List Char) (x : Char)
    (hl : ∀ c ∈ l, p c = true) (hx : p x = false) :
    (l ++ x :: r).takeWhile p = l ∧ (l ++ x :: r).dropWhile p = x :: r := by
  induction l with
  | nil => simp [List.takeWhile, List.dropWhile, hx]
  | cons c cs ih =>
    have hc : p c = true := hl c (by simp)
    have ih2 := ih (fun c2 hc2 => hl c2 (by simp [hc2]))
    simp [List.takeWhile, List.dropWhile, hc, ih2.1, ih2.2]

theorem mem_twoFracChars {m : ℕ} {c : Char} (hm : m < 100) (h : c ∈ twoFracChars m) :
    ∃ d, d < 10 ∧ c = digitChar d := by
  unfold twoFracChars at h
  rcases List.mem_cons.mp h with h | h
  · exact ⟨m / 10, by omega, h⟩
  · rcases List.mem_cons.mp h with h | h
    · exact ⟨m % 10, by omega, h⟩
    · simp at h

theorem mem_moneyChars_ne_minus {k : ℕ} {c : Char} (h : c ∈ moneyChars k) : c ≠ '-' := by
  unfold moneyChars at h
  rcases List.mem_append.mp h with h | h
  · obtain ⟨d, hd, he⟩ := mem_natToChars h
    rw [he]; exact (digitChar_isDigitChar hd).2
  · rcases List.mem_cons.mp h with h | h
    · rw [h]; decide
    · obtain ⟨d, hd, he⟩ := mem_twoFracChars (Nat.mod_lt _ (by omega)) h
      rw [he]; exact (digitChar_isDigitChar hd).2

theorem parseMoney_mk_of_head {c : Char} {cs : List Char} (hc : c ≠ '-') :
    parseMoney (String.mk (c :: cs)) = parseUnsignedMoney (c :: cs) := by
  show (if c = '-' then -parseUnsignedMoney cs else parseUnsignedMoney (c :: cs)) = _
  simp [hc]

theorem parseUnsignedMoney_moneyChars (k : ℕ) :
    parseUnsignedMoney (moneyChars k) = (k : ℚ) / 100 := by
  have hm : k % 100 < 100 := Nat.mod_lt _ (by omega)
  have hl : ∀ c ∈ natToChars (k / 100 + 1) (k / 100),
      (fun c => decide (c ≠ '.')) c = true := by
    intro c hcm
    obtain ⟨d, hd, he⟩ := mem_natToChars hcm
    simp [he, (digitChar_isDigitChar hd).1]
  have hx : (fun c => decide (c ≠ '.')) '.' = false := by decide
  obtain ⟨ht, hd⟩ := takeWhile_dropWhile_append
    (natToChars (k / 100 + 1) (k / 100)) (twoFracChars (k % 100)) '.' hl hx
  have h1 : parseDigits (natToChars (k / 100 + 1) (k / 100)) = k / 100 :=
    parseDigits_natToChars (by omega)
  have h2 : parseDigits (twoFracChars (k % 100)) = k % 100 := by
    show parseDigits [digitChar (k % 100 / 10), digitChar (k % 100 % 10)] = k % 100
    unfold parseDigits
    rw [List.foldl_cons, List.foldl_cons, List.foldl_nil,
      digitChar_toNat (show k % 100 / 10 < 10 by omega),
      digitChar_toNat (show k % 100 % 10 < 10 by omega)]
    omega
  have h3 : (twoFracChars (k % 100)).length = 2 := rfl
  unfold moneyChars parseUnsignedMoney parseFrac
  rw [hd, ht]
  dsimp only
  rw [h1, h2, h3]
  have h4 : 100 * (k / 100) + k % 100 = k := Nat.div_add_mod k 100
  have h5 : ((k / 100 : ℕ) : ℚ) * 100 + ((k % 100 : ℕ) : ℚ) = (k : ℚ) := by
    have h6 := congrArg (fun n : ℕ => (n : ℚ)) h4
    push_cast at h6
    linarith [h6]
  field_simp
  linarith [h5]

theorem parseMoney_formatMoney {x : ℚ} (h0 : 0 ≤ x) (h2 : twoDec x) :
    parseMoney (formatMoney x) = x := by
  obtain ⟨k, hk⟩ := h2
  have hr : roundHalfEven (x * 100) = k := roundHalfEven_mul_hundred hk
  have hk0 : 0 ≤ k := by
    have h3 := roundHalfEven_nonneg (x := x * 100) (by positivity)
    rw [hr] at h3; exact h3
  have hf : formatMoney x = String.mk (moneyChars k.natAbs) := by
    unfold formatMoney
    rw [hr, if_neg (by omega)]
  rw [hf]
  cases he : moneyChars k.natAbs with
  | nil => exact absurd he (moneyChars_ne_nil _)
  | cons c cs =>
    have hc : c ≠ '-' := mem_moneyChars_ne_minus (by rw [he]; simp)
    rw [parseMoney_mk_of_head hc, ← he, parseUnsignedMoney_moneyChars, hk]
    congr 1
    have h7 : (k.natAbs : ℤ) = k := Int.natAbs_of_nonneg hk0
    have h8 : ((k.natAbs : ℕ) : ℚ) = ((k.natAbs : ℤ) : ℚ) := (Int.cast_natCast k.natAbs).symm
    rw [h8, h7]

/-! ### Row round-trips for the four entities -/

theorem user_row_roundtrip (u : User) : user_from_row (User.to_row u) = u := rfl

theorem item_row_roundtrip (it : Item) : item_from_row (Item.to_row it) = it := rfl

theorem listing_row_roundtrip {l : Listing} (hp0 : 0 ≤ l.price) (hp2 : twoDec l.price) :
    listing_from_row (Listing.to_row l) = l := by
  unfold listing_from_row Listing.to_row
  simp only [if_neg (formatMoney_ne_empty l.price), if_neg (intToString_ne_empty l.quantity),
    parseMoney_formatMoney hp0 hp2, parseInt_intToString, parse_bool_bool_str]

theorem order_row_roundtrip {o : Order} (hu0 : 0 ≤ o.unit_price) (hu2 : twoDec o.unit_price)
    (ht0 : 0 ≤ o.total_price) (ht2 : twoDec o.total_price) :
    order_from_row (Order.to_row o) = o := by
  unfold order_from_row Order.to_row
  simp only [if_neg (formatMoney_ne_empty o.unit_price),
    if_neg (formatMoney_ne_empty o.total_price), if_neg (intToString_ne_empty o.quantity),
    parseMoney_formatMoney hu0 hu2, parseMoney_formatMoney ht0 ht2, parseInt_intToString]

/-! ### Round-trip of one whole table through save and load -/

theorem load_save_aux {α ρ : Type} (to_row : α → ρ) (from_row : ρ → α) (rid : ρ → String)
    (t acc : Table α)
    (hnd : (Table.keys t).Nodup)
    (hdisj : ∀ k ∈ Table.keys t, Table.find? acc k = none)
    (hrow : ∀ p ∈ t, rid (to_row p.2) = p.1 ∧ p.1 ≠ "" ∧ from_row (to_row p.2) = p.2) :
    ((Table.values t).map to_row).foldl
      (fun dst row =>
        if rid row = "" then dst else Table.insert dst (rid row) (from_row row)) acc
      = acc ++ t := by
  induction t generalizing acc with
  | nil => simp [Table.values]
  | cons p rest ih =>
    obtain ⟨k, v⟩ := p
    obtain ⟨hid, hk, hrt⟩ := hrow (k, v) (by simp)
    have hkeys : Table.keys ((k, v) :: rest) = k :: Table.keys rest := rfl
    rw [hkeys] at hnd hdisj
    have hknr : k ∉ Table.keys rest := (List.nodup_cons.mp hnd).1
    have hndr : (Table.keys rest).Nodup := (List.nodup_cons.mp hnd).2
    have hvals : Table.values ((k, v) :: rest) = v :: Table.values rest := rfl
    rw [hvals, List.map_cons, List.foldl_cons, hid, if_neg hk, hrt,
      Table.insert_of_find?_none v (hdisj k (by simp))]
    rw [ih (acc ++ [(k, v)]) hndr ?disj ?row]
    · rw [List.append_assoc]; rfl
    case disj =>
      intro k2 hk2
      have hne : k2 ≠ k := fun he => hknr (he ▸ hk2)
      rw [Table.find?_append_of_none _ (hdisj k2 (by simp [hk2]))]
      show (if k = k2 then some v else Table.find? [] k2) = none
      rw [if_neg (fun he => hne he.symm)]
      rfl
    case row =>
      intro p hp
      exact hrow p (by simp [hp])

theorem load_users_save (t : Table User)
    (hnd : (Table.keys t).Nodup) (hkey : ∀ p ∈ t, p.2.id = p.1 ∧ p.1 ≠ "") :
    load_users (save_users t) = t := by
  have h := load_save_aux User.to_row user_from_row UserRow.user_id t [] hnd
    (by intro k _; rfl)
    (by
      intro p hp
      obtain ⟨h1, h2⟩ := hkey p hp
      exact ⟨h1, h2, rfl⟩)
  simpa [load_users, save_users] using h

theorem load_items_save (t : Table Item)
    (hnd : (Table.keys t).Nodup) (hkey : ∀ p ∈ t, p.2.id = p.1 ∧ p.1 ≠ "") :
    load_items (save_items t) = t := by
  have h := load_save_aux Item.to_row item_from_row ItemRow.item_id t [] hnd
    (by intro k _; rfl)
    (by
      intro p hp
      obtain ⟨h1, h2⟩ := hkey p hp
      exact ⟨h1, h2, rfl⟩)
  simpa [load_items, save_items] using h

theorem load_listings_save (t : Table Listing)
    (hnd : (Table.keys t).Nodup) (hkey : ∀ p ∈ t, p.2.id = p.1 ∧ p.1 ≠ "")
    (hfld : ∀ p ∈ t, 0 ≤ p.2.price ∧ twoDec p.2.price) :
    load_listings (save_listings t) = t := by
  have h := load_save_aux Listing.to_row listing_from_row ListingRow.listing_id t [] hnd
    (by intro k _; rfl)
    (by
      intro p hp
      obtain ⟨h1, h2⟩ := hkey p hp
      obtain ⟨h3, h4⟩ := hfld p hp
      exact ⟨h1, h2, listing_row_roundtrip h3 h4⟩)
  simpa [load_listings, save_listings] using h

theorem load_orders_save (t : Table Order)
    (hnd : (Table.keys t).Nodup) (hkey : ∀ p ∈ t, p.2.id = p.1 ∧ p.1 ≠ "")
    (hfld : ∀ p ∈ t, (0 ≤ p.2.unit_price ∧ twoDec p.2.unit_price) ∧
      0 ≤ p.2.total_price ∧ twoDec p.2.total_price) :
    load_orders (save_orders t) = t := by
  have h := load_save_aux Order.to_row order_from_row OrderRow.order_id t [] hnd
    (by intro k _; rfl)
    (by
      intro p hp
      obtain ⟨h1, h2⟩ := hkey p hp
      obtain ⟨⟨h3, h4⟩, h5, h6⟩ := hfld p hp
      exact ⟨h1, h2, order_row_roundtrip h3 h4 h5 h6⟩)
  simpa [load_orders, save_orders] using h

/-! ### Success and failure shapes of the mutating operations -/


/-- The listing as mutated by a successful purchase of `q` units. -/
def boughtListing (listing : Listing) (q : ℤ) : Listing :=
  ⟨listing.id, listing.item_id, listing.seller_id, listing.price,
   listing.quantity - q,
   if listing.quantity - q ≤ 0 then false else listing.active,
   listing.deleted⟩

/-- The order created by a successful purchase. -/
def madeOrder (oid : String) (buyer : User) (listing : Listing) (q : ℤ) : Order :=
  ⟨oid, buyer.id, listing.seller_id, listing.id, listing.price, q,
   round2 (listing.price * (q : ℚ)), "COMPLETED"⟩

/-- The listing as mutated by a successful soft delete. -/
def deletedListing (listing : Listing) : Listing :=
  ⟨listing.id, listing.item_id, listing.seller_id, listing.price,
   listing.quantity, false, true⟩

theorem error_ne_ok {ε α : Type} (e : ε) (a : α) :
    (Except.error e : Except ε α) ≠ Except.ok a :=
  fun h => Except.noConfusion h

theorem ok_ne_error {ε α : Type} (a : α) (e : ε) :
    (Except.ok a : Except ε α) ≠ Except.error e :=
  fun h => Except.noConfusion h

theorem register_ok_eq {m : Marketplace} {uid username password : String} {u : User}
    {m2 : Marketplace} (h : register m uid username password = (.ok u, m2)) :
    u = ⟨uid, title_case username, password⟩ ∧
    m2.users = Table.insert m.users uid ⟨uid, title_case username, password⟩ ∧
    m2.items = m.items ∧ m2.listings = m.listings ∧ m2.orders = m.orders ∧
    title_case username ≠ "" ∧ password ≠ "" := by
  simp only [register] at h
  split_ifs at h with h1 h2
  all_goals simp only [Prod.mk.injEq] at h
  all_goals try exact absurd h.1 (error_ne_ok _ _)
  simp only [Except.ok.injEq] at h
  push_neg at h1
  exact ⟨h.1.symm, by rw [← h.2], by rw [← h.2], by rw [← h.2], by rw [← h.2],
    h1.1, h1.2⟩

theorem post_listing_ok_eq {m : Marketplace} {iid lid : String} {seller : User}
    {name category brand condition description : String} {price : ℚ} {quantity : ℤ}
    {l : Listing} {m2 : Marketplace}
    (h : post_listing m iid lid seller name category brand condition description
      price quantity = (.ok l, m2)) :
    l = ⟨lid, iid, seller.id, round2 price, quantity, true, false⟩ ∧
    m2.users = m.users ∧
    m2.items = Table.insert m.items iid
      ⟨iid, title_case name, title_case category, title_case brand,
       upperStr (stripStr condition), title_case description⟩ ∧
    m2.listings = Table.insert m.listings lid
      ⟨lid, iid, seller.id, round2 price, quantity, true, false⟩ ∧
    m2.orders = m.orders ∧
    0 < price ∧ 0 < quantity := by
  simp only [post_listing] at h
  split_ifs at h with h1 h2 h3
  all_goals simp only [Prod.mk.injEq] at h
  all_goals try exact absurd h.1 (error_ne_ok _ _)
  simp only [Except.ok.injEq] at h
  push_neg at h3
  exact ⟨h.1.symm, by rw [← h.2], by rw [← h.2], by rw [← h.2], by rw [← h.2],
    h3.1, h3.2⟩

theorem delete_listing_ok_eq {m : Marketplace} {seller : User} {lid : String}
    {m2 : Marketplace} (h : delete_listing m seller lid = (.ok (), m2)) :
    ∃ listing, Table.find? m.listings lid = some listing ∧
      listing.seller_id = seller.id ∧
      m2.users = m.users ∧ m2.items = m.items ∧ m2.orders = m.orders ∧
      m2.listings = Table.insert m.listings lid (deletedListing listing) := by
  unfold delete_listing at h
  cases hf : Table.find? m.listings lid with
  | none =>
    rw [hf] at h
    simp only [Prod.mk.injEq] at h
    exact absurd h.1 (error_ne_ok _ _)
  | some listing =>
    rw [hf] at h
    dsimp only at h
    split_ifs at h with h1
    all_goals simp only [Prod.mk.injEq] at h
    all_goals try exact absurd h.1 (error_ne_ok _ _)
    push_neg at h1
    exact ⟨listing, rfl, h1, by rw [← h.2], by rw [← h.2], by rw [← h.2],
      by rw [← h.2]; rfl⟩

theorem buy_listing_ok_eq {m : Marketplace} {oid : String} {buyer : User} {lid : String}
    {q : ℤ} {o : Order} {m2 : Marketplace}
    (h : buy_listing m oid buyer lid q = (.ok o, m2)) :
    ∃ listing, Table.find? m.listings lid = some listing ∧
      listing.deleted = false ∧ listing.active = true ∧ 0 < listing.quantity ∧
      0 < q ∧ q ≤ listing.quantity ∧
      o = madeOrder oid buyer listing q ∧
      m2.users = m.users ∧ m2.items = m.items ∧
      m2.orders = Table.insert m.orders oid (madeOrder oid buyer listing q) ∧
      m2.listings = Table.insert m.listings lid (boughtListing listing q) := by
  unfold buy_listing at h
  cases hf : Table.find? m.listings lid with
  | none =>
    rw [hf] at h
    simp only [Prod.mk.injEq] at h
    exact absurd h.1 (error_ne_ok _ _)
  | some listing =>
    rw [hf] at h
    dsimp only at h
    split_ifs at h with h1 h2 h3
    all_goals simp only [Prod.mk.injEq] at h
    all_goals try exact absurd h.1 (error_ne_ok _ _)
    all_goals simp only [Except.ok.injEq] at h
    all_goals push_neg at h1 h2
    all_goals refine ⟨listing, rfl, ?_, ?_, ?_, ?_, ?_, h.1.symm, by rw [← h.2],
      by rw [← h.2], by rw [← h.2]; rfl, ?_⟩
    all_goals try simpa using h1.1
    all_goals try simpa using h1.2.1
    all_goals try omega
    · rw [← h.2]
      unfold boughtListing
      rw [if_pos h3]
    · rw [← h.2]
      unfold boughtListing
      rw [if_neg h3]

theorem register_error_state {m : Marketplace} {uid username password : String}
    {e : MarketError} {m2 : Marketplace}
    (h : register m uid username password = (.error e, m2)) : m2 = m := by
  simp only [register] at h
  split_ifs at h
  all_goals simp only [Prod.mk.injEq] at h
  all_goals first
    | exact h.2.symm
    | exact absurd h.1 (ok_ne_error _ _)

theorem post_listing_error_state {m : Marketplace} {iid lid : String} {seller : User}
    {name category brand condition description : String} {price : ℚ} {quantity : ℤ}
    {e : MarketError} {m2 : Marketplace}
    (h : post_listing m iid lid seller name category brand condition description
      price quantity = (.error e, m2)) : m2 = m := by
  simp only [post_listing] at h
  split_ifs at h
  all_goals simp only [Prod.mk.injEq] at h
  all_goals first
    | exact h.2.symm
    | exact absurd h.1 (ok_ne_error _ _)

theorem delete_listing_error_state {m : Marketplace} {seller : User} {lid : String}
    {e : MarketError} {m2 : Marketplace}
    (h : delete_listing m seller lid = (.error e, m2)) : m2 = m := by
  unfold delete_listing at h
  cases hf : Table.find? m.listings lid with
  | none =>
    rw [hf] at h
    simp only [Prod.mk.injEq] at h
    exact h.2.symm
  | some listing =>
    rw [hf] at h
    dsimp only at h
    split_ifs at h
    all_goals simp only [Prod.mk.injEq] at h
    all_goals first
      | exact h.2.symm
      | exact absurd h.1 (ok_ne_error _ _)

theorem buy_listing_error_state {m : Marketplace} {oid : String} {buyer : User}
    {lid : String} {q : ℤ} {e : MarketError} {m2 : Marketplace}
    (h : buy_listing m oid buyer lid q = (.error e, m2)) : m2 = m := by
  unfold buy_listing at h
  cases hf : Table.find? m.listings lid with
  | none =>
    rw [hf] at h
    simp only [Prod.mk.injEq] at h
    exact h.2.symm
  | some listing =>
    rw [hf] at h
    dsimp only at h
    split_ifs at h
    all_goals simp only [Prod.mk.injEq] at h
    all_goals first
      | exact h.2.symm
      | exact absurd h.1 (ok_ne_error _ _)

/-! ### A well-formedness invariant of reachable states -/

/-- Every entry's key is the entity's own id and is non-empty, and keys
never repeat. -/
def goodKeys {α : Type} (t : Table α) (idOf : α → String) : Prop :=
  (Table.keys t).Nodup ∧ ∀ p ∈ t, idOf p.2 = p.1 ∧ p.1 ≠ ""

/-- The state invariant maintained by every controller operation. -/
structure WF (m : Marketplace) : Prop where
  users_keys : goodKeys m.users User.id
  items_keys : goodKeys m.items Item.id
  listings_keys : goodKeys m.listings Listing.id
  orders_keys : goodKeys m.orders Order.id
  listings_fields : ∀ p ∈ m.listings,
    0 ≤ p.2.price ∧ twoDec p.2.price ∧ 0 ≤ p.2.quantity
  orders_fields : ∀ p ∈ m.orders,
    (0 ≤ p.2.unit_price ∧ twoDec p.2.unit_price) ∧
    (0 ≤ p.2.total_price ∧ twoDec p.2.total_price)

theorem goodKeys_insert {α : Type} {t : Table α} {idOf : α → String} {k : String} {v : α}
    (h : goodKeys t idOf) (hid : idOf v = k) (hk : k ≠ "") :
    goodKeys (Table.insert t k v) idOf := by
  refine ⟨Table.nodup_keys_insert v h.1, ?_⟩
  intro p hp
  rcases Table.mem_insert hp with hp2 | hp2
  · exact h.2 p hp2
  · subst hp2; exact ⟨hid, hk⟩

theorem genId_ne_empty {α : Type} {t : Table α} {id : String} (h : genId t id) :
    id ≠ "" := by
  obtain ⟨⟨n, _, _, he⟩, _⟩ := h
  rw [he]
  exact natToString_ne_empty n

theorem wf_empty : WF emptyMarketplace := by
  constructor <;> first
    | exact ⟨List.nodup_nil, by intro p hp; simp [emptyMarketplace] at hp⟩
    | (intro p hp; simp [emptyMarketplace] at hp)

theorem wf_step {m m2 : Marketplace} (hwf : WF m) (hs : Step m m2) : WF m2 := by
  cases hs with
  | step_register uid username password u m2x hg hok =>
    obtain ⟨hu, hus, hit, hli, hor, _, _⟩ := register_ok_eq hok
    constructor
    · rw [hus]; exact goodKeys_insert hwf.users_keys rfl (genId_ne_empty hg)
    · rw [hit]; exact hwf.items_keys
    · rw [hli]; exact hwf.listings_keys
    · rw [hor]; exact hwf.orders_keys
    · rw [hli]; exact hwf.listings_fields
    · rw [hor]; exact hwf.orders_fields
  | step_post iid lid seller name category brand condition description price
      quantity l m2x hgi hgl hok =>
    obtain ⟨hl, hus, hit, hli, hor, hp, hq⟩ := post_listing_ok_eq hok
    constructor
    · rw [hus]; exact hwf.users_keys
    · rw [hit]; exact goodKeys_insert hwf.items_keys rfl (genId_ne_empty hgi)
    · rw [hli]; exact goodKeys_insert hwf.listings_keys rfl (genId_ne_empty hgl)
    · rw [hor]; exact hwf.orders_keys
    · rw [hli]
      intro p hp2
      rcases Table.mem_insert hp2 with hp3 | hp3
      · exact hwf.listings_fields p hp3
      · subst hp3
        exact ⟨round2_nonneg (le_of_lt hp), round2_twoDec price, le_of_lt hq⟩
    · rw [hor]; exact hwf.orders_fields
  | step_delete seller lid m2x hok =>
    obtain ⟨listing, hf, hsell, hus, hit, hor, hli⟩ := delete_listing_ok_eq hok
    have hmem := Table.mem_of_find?_eq_some hf
    have hkey := hwf.listings_keys.2 _ hmem
    constructor
    · rw [hus]; exact hwf.users_keys
    · rw [hit]; exact hwf.items_keys
    · rw [hli]
      exact goodKeys_insert hwf.listings_keys hkey.1 hkey.2
    · rw [hor]; exact hwf.orders_keys
    · rw [hli]
      intro p hp2
      rcases Table.mem_insert hp2 with hp3 | hp3
      · exact hwf.listings_fields p hp3
      · subst hp3
        have hfld := hwf.listings_fields _ hmem
        exact ⟨hfld.1, hfld.2.1, hfld.2.2⟩
    · rw [hor]; exact hwf.orders_fields
  | step_buy oid buyer lid q o m2x hg hok =>
    obtain ⟨listing, hf, hdel, hact, hq0, hq1, hq2, ho, hus, hit, hor, hli⟩ :=
      buy_listing_ok_eq hok
    have hmem := Table.mem_of_find?_eq_some hf
    have hkey := hwf.listings_keys.2 _ hmem
    have hfld := hwf.listings_fields _ hmem
    constructor
    · rw [hus]; exact hwf.users_keys
    · rw [hit]; exact hwf.items_keys
    · rw [hli]
      exact goodKeys_insert hwf.listings_keys hkey.1 hkey.2
    · rw [hor]
      exact goodKeys_insert hwf.orders_keys rfl (genId_ne_empty hg)
    · rw [hli]
      intro p hp2
      rcases Table.mem_insert hp2 with hp3 | hp3
      · exact hwf.listings_fields p hp3
      · subst hp3
        refine ⟨hfld.1, hfld.2.1, ?_⟩
        show (0 : ℤ) ≤ listing.quantity - q
        omega
    · rw [hor]
      intro p hp2
      rcases Table.mem_insert hp2 with hp3 | hp3
      · exact hwf.orders_fields p hp3
      · subst hp3
        refine ⟨⟨hfld.1, hfld.2.1⟩, round2_nonneg ?_, round2_twoDec _⟩
        have : (0 : ℚ) ≤ (q : ℚ) := by exact_mod_cast le_of_lt hq1
        exact mul_nonneg hfld.1 this

theorem wf_steps {m m2 : Marketplace} (h : Steps m m2) (hwf : WF m) : WF m2 := by
  induction h with
  | refl => exact hwf
  | tail _ hstep ih => exact wf_step ih hstep

theorem wf_reachable {m : Marketplace} (h : Reachable m) : WF m :=
  wf_steps h wf_empty


/-! ### Stock conservation and the terminal soft-delete flag -/

/-- Total quantity of the orders recorded against a listing id. -/
def sold (orders : Table Order) (lid : String) : ℤ :=
  (((Table.values orders).filter (fun o => o.listing_id == lid)).map Order.quantity).sum

theorem sold_insert_fresh {orders : Table Order} {oid : String} (o : Order) (lid : String)
    (h : Table.find? orders oid = none) :
    sold (Table.insert orders oid o) lid
      = sold orders lid + (if o.listing_id = lid then o.quantity else 0) := by
  simp only [sold, Table.insert_of_find?_none o h, Table.values, List.map_append,
    List.filter_append, List.sum_append]
  by_cases hl : o.listing_id = lid
  · simp [hl]
  · simp [hl]

theorem step_conservation {m m2 : Marketplace} (hwf : WF m) (hs : Step m m2)
    {lid : String} {l : Listing} (hf : Table.find? m.listings lid = some l) :
    ∃ l2, Table.find? m2.listings lid = some l2 ∧
      sold m2.orders lid + l2.quantity = sold m.orders lid + l.quantity ∧
      (0 ≤ l.quantity → 0 ≤ l2.quantity) := by
  cases hs with
  | step_register uid username password u m2x hg hok =>
    obtain ⟨_, _, _, hli, hor, _, _⟩ := register_ok_eq hok
    exact ⟨l, by rw [hli]; exact hf, by rw [hor], fun h => h⟩
  | step_post iid lid2 seller name category brand condition description price
      quantity l0 m2x hgi hgl hok =>
    obtain ⟨_, _, _, hli, hor, _, _⟩ := post_listing_ok_eq hok
    have hne : lid2 ≠ lid := by
      intro he
      rw [he] at hgl
      rw [hgl.2] at hf
      exact Option.noConfusion hf
    refine ⟨l, ?_, by rw [hor], fun h => h⟩
    rw [hli, Table.find?_insert, if_neg hne]
    exact hf
  | step_delete seller lid2 m2x hok =>
    obtain ⟨listing, hf2, hsell, hus, hit, hor, hli⟩ := delete_listing_ok_eq hok
    by_cases he : lid2 = lid
    · subst he
      rw [hf] at hf2
      have hl : listing = l := Option.some.inj hf2.symm
      subst hl
      refine ⟨deletedListing listing, ?_, by rw [hor]; rfl, fun h => h⟩
      rw [hli, Table.find?_insert, if_pos rfl]
    · refine ⟨l, ?_, by rw [hor], fun h => h⟩
      rw [hli, Table.find?_insert, if_neg he]
      exact hf
  | step_buy oid buyer lid2 q o m2x hg hok =>
    obtain ⟨listing, hf2, hdel, hact, hq0, hq1, hq2, ho, hus, hit, hor, hli⟩ :=
      buy_listing_ok_eq hok
    have hkey := hwf.listings_keys.2 _ (Table.mem_of_find?_eq_some hf2)
    by_cases he : lid2 = lid
    · subst he
      rw [hf] at hf2
      have hl : listing = l := Option.some.inj hf2.symm
      subst hl
      refine ⟨boughtListing listing q, ?_, ?_, ?_⟩
      · rw [hli, Table.find?_insert, if_pos rfl]
      · rw [hor, sold_insert_fresh _ _ hg.2]
        have hid : (madeOrder oid buyer listing q).listing_id = lid2 := hkey.1
        rw [if_pos hid]
        show sold m.orders lid2 + q + (listing.quantity - q)
          = sold m.orders lid2 + listing.quantity
        ring
      · intro h
        show (0 : ℤ) ≤ listing.quantity - q
        omega
    · refine ⟨l, ?_, ?_, fun h => h⟩
      · rw [hli, Table.find?_insert, if_neg he]
        exact hf
      · rw [hor, sold_insert_fresh _ _ hg.2]
        have hid : (madeOrder oid buyer listing q).listing_id = lid2 := hkey.1
        rw [if_neg (by rw [hid]; exact he)]
        ring

theorem steps_conservation {m m2 : Marketplace} (hwf : WF m) (hst : Steps m m2)
    {lid : String} {l : Listing} (hf : Table.find? m.listings lid = some l)
    (hq : 0 ≤ l.quantity) :
    ∃ l2, Table.find? m2.listings lid = some l2 ∧
      sold m2.orders lid + l2.quantity = sold m.orders lid + l.quantity ∧
      0 ≤ l2.quantity := by
  induction hst with
  | refl => exact ⟨l, hf, rfl, hq⟩
  | tail hsteps hstep ih =>
    obtain ⟨l2, hf2, heq, hq2⟩ := ih
    obtain ⟨l3, hf3, heq3, hq3⟩ := step_conservation (wf_steps hsteps hwf) hstep hf2
    exact ⟨l3, hf3, by omega, hq3 hq2⟩

theorem step_deleted_terminal {m m2 : Marketplace} (hs : Step m m2)
    {lid : String} {l : Listing} (hf : Table.find? m.listings lid = some l)
    (hd : l.deleted = true) :
    ∃ l2, Table.find? m2.listings lid = some l2 ∧ l2.deleted = true := by
  cases hs with
  | step_register uid username password u m2x hg hok =>
    obtain ⟨_, _, _, hli, _, _, _⟩ := register_ok_eq hok
    exact ⟨l, by rw [hli]; exact hf, hd⟩
  | step_post iid lid2 seller name category brand condition description price
      quantity l0 m2x hgi hgl hok =>
    obtain ⟨_, _, _, hli, _, _, _⟩ := post_listing_ok_eq hok
    have hne : lid2 ≠ lid := by
      intro he
      rw [he] at hgl
      rw [hgl.2] at hf
      exact Option.noConfusion hf
    refine ⟨l, ?_, hd⟩
    rw [hli, Table.find?_insert, if_neg hne]
    exact hf
  | step_delete seller lid2 m2x hok =>
    obtain ⟨listing, hf2, hsell, hus, hit, hor, hli⟩ := delete_listing_ok_eq hok
    by_cases he : lid2 = lid
    · subst he
      refine ⟨deletedListing listing, ?_, rfl⟩
      rw [hli, Table.find?_insert, if_pos rfl]
    · refine ⟨l, ?_, hd⟩
      rw [hli, Table.find?_insert, if_neg he]
      exact hf
  | step_buy oid buyer lid2 q o m2x hg hok =>
    obtain ⟨listing, hf2, hdel, hact, hq0, hq1, hq2, ho, hus, hit, hor, hli⟩ :=
      buy_listing_ok_eq hok
    by_cases he : lid2 = lid
    · subst he
      rw [hf] at hf2
      have hl : listing = l := Option.some.inj hf2.symm
      rw [hl] at hdel
      rw [hd] at hdel
      exact Bool.noConfusion hdel
    · refine ⟨l, ?_, hd⟩
      rw [hli, Table.find?_insert, if_neg he]
      exact hf

theorem steps_deleted_terminal {m m2 : Marketplace} (hst : Steps m m2)
    {lid : String} {l : Listing} (hf : Table.find? m.listings lid = some l)
    (hd : l.deleted = true) :
    ∃ l2, Table.find? m2.listings lid = some l2 ∧ l2.deleted = true := by
  induction hst with
  | refl => exact ⟨l, hf, hd⟩
  | tail hsteps hstep ih =>
    obtain ⟨l2, hf2, hd2⟩ := ih
    exact step_deleted_terminal hstep hf2 hd2

/-- In a state, every soft-deleted listing is inactive. -/
def deletedInactive (m : Marketplace) : Prop :=
  ∀ p ∈ m.listings, p.2.deleted = true → p.2.active = false

theorem deletedInactive_step {m m2 : Marketplace} (hinv : deletedInactive m)
    (hs : Step m m2) : deletedInactive m2 := by
  cases hs with
  | step_register uid username password u m2x hg hok =>
    obtain ⟨_, _, _, hli, _, _, _⟩ := register_ok_eq hok
    rw [deletedInactive, hli]
    exact hinv
  | step_post iid lid2 seller name category brand condition description price
      quantity l0 m2x hgi hgl hok =>
    obtain ⟨_, _, _, hli, _, _, _⟩ := post_listing_ok_eq hok
    rw [deletedInactive, hli]
    intro p hp hpd
    rcases Table.mem_insert hp with hp2 | hp2
    · exact hinv p hp2 hpd
    · rw [hp2] at hpd
      exact Bool.noConfusion hpd
  | step_delete seller lid2 m2x hok =>
    obtain ⟨listing, hf2, hsell, hus, hit, hor, hli⟩ := delete_listing_ok_eq hok
    rw [deletedInactive, hli]
    intro p hp hpd
    rcases Table.mem_insert hp with hp2 | hp2
    · exact hinv p hp2 hpd
    · rw [hp2]
      rfl
  | step_buy oid buyer lid2 q o m2x hg hok =>
    obtain ⟨listing, hf2, hdel, hact, hq0, hq1, hq2, ho, hus, hit, hor, hli⟩ :=
      buy_listing_ok_eq hok
    rw [deletedInactive, hli]
    intro p hp hpd
    rcases Table.mem_insert hp with hp2 | hp2
    · exact hinv p hp2 hpd
    · rw [hp2] at hpd
      have : (boughtListing listing q).deleted = listing.deleted := rfl
      rw [this, hdel] at hpd
      exact Bool.noConfusion hpd

theorem deletedInactive_reachable {m : Marketplace} (h : Reachable m) :
    deletedInactive m := by
  induction h with
  | refl => intro p hp; simp [emptyMarketplace] at hp
  | tail _ hstep ih => exact deletedInactive_step ih hstep


/-! ### Helper equations for evaluating round2 on concrete values -/

theorem round2_eq_div (x : ℚ) (k : ℤ) (h : x * 100 = (k : ℚ)) :
    round2 x = (k : ℚ) / 100 := by
  unfold round2
  rw [h, roundHalfEven_intCast]

/-! ### Witness fixtures: a tiny concrete state with one listing -/

/-- A concrete listing: price 250, stock 2, active, not deleted. -/
def wListing : Listing := ⟨"300001", "200001", "100001", 250, 2, true, false⟩

/-- A concrete state holding only `wListing`. -/
def wMarket : Marketplace := ⟨[], [], [("300001", wListing)], []⟩

/-- A concrete buyer. -/
def wCarol : User := ⟨"100002", "Carol", "pw2"⟩

/-! ### Claim theorems -/

/-- C1: when a listing is not deleted, active, and has stock at least the
requested quantity `q > 0`, `buy_listing` succeeds; it decrements the
listing quantity by exactly `q`, sets `active = false` exactly when the
resulting quantity is ≤ 0 (leaving it `true` otherwise), and returns an
order whose `unit_price` is the listing price, whose `total_price` is
`round2 (unit_price * q)`, and whose status is `"COMPLETED"`. -/
theorem C1_buy_listing_success {m : Marketplace} {oid : String} {buyer : User}
    {lid : String} {q : ℤ} {l : Listing}
    (hf : Table.find? m.listings lid = some l)
    (hdel : l.deleted = false) (hact : l.active = true)
    (hq0 : 0 < q) (hqle : q ≤ l.quantity) :
    ∃ o m2, buy_listing m oid buyer lid q = (.ok o, m2) ∧
      (∃ l2, Table.find? m2.listings lid = some l2 ∧
        l2.quantity = l.quantity - q ∧
        (l2.active = false ↔ l.quantity - q ≤ 0)) ∧
      o.unit_price = l.price ∧
      o.total_price = round2 (l.price * (q : ℚ)) ∧
      o.status = "COMPLETED" ∧
      o.quantity = q := by
  have hbuy : buy_listing m oid buyer lid q =
      (.ok (madeOrder oid buyer l q),
        { m with orders := Table.insert m.orders oid (madeOrder oid buyer l q),
                 listings := Table.insert m.listings lid (boughtListing l q) }) := by
    unfold buy_listing
    rw [hf]
    dsimp only
    rw [if_neg (by simp [hdel, hact]; omega), if_neg (by omega)]
    unfold madeOrder boughtListing
    rfl
  refine ⟨madeOrder oid buyer l q, _, hbuy, ⟨boughtListing l q, ?_, rfl, ?_⟩,
    rfl, rfl, rfl, rfl⟩
  · show Table.find? (Table.insert m.listings lid (boughtListing l q)) lid = _
    rw [Table.find?_insert, if_pos rfl]
  · by_cases hc : l.quantity - q ≤ 0
    · simp only [boughtListing, if_pos hc]
      simpa using hc
    · simp only [boughtListing, if_neg hc]
      rw [hact]
      simpa using hc

/-- Witness for C1: buying 2 units at price 250 from a listing with stock 2
yields an order with total 500.00, and the listing ends with quantity 0 and
`active = false`. -/
theorem C1_buy_listing_success_witness :
    ∃ o m2, buy_listing wMarket "400001" wCarol "300001" 2 = (.ok o, m2) ∧
      o.total_price = 500 ∧ o.unit_price = 250 ∧ o.status = "COMPLETED" ∧
      ∃ l2, Table.find? m2.listings "300001" = some l2 ∧
        l2.quantity = 0 ∧ l2.active = false ∧ l2.deleted = false := by
  obtain ⟨o, m2, hbuy, ⟨l2, hf2, hq2, hiff⟩, hup, htp, hst, hoq⟩ :=
    @C1_buy_listing_success wMarket "400001" wCarol "300001" 2 wListing
      rfl rfl rfl (by decide) (by decide)
  refine ⟨o, m2, hbuy, ?_, ?_, hst, l2, hf2, ?_, ?_, ?_⟩
  · rw [htp]
    have hx : wListing.price * ((2 : ℤ) : ℚ) * 100 = ((50000 : ℤ) : ℚ) := by
      show (250 : ℚ) * ((2 : ℤ) : ℚ) * 100 = ((50000 : ℤ) : ℚ)
      norm_num
    rw [round2_eq_div _ 50000 hx]
    norm_num
  · rw [hup]; rfl
  · rw [hq2]; rfl
  · exact hiff.mpr (by decide)
  · obtain ⟨listing, hfx, _, _, _, _, _, _, _, _, _, hli⟩ := buy_listing_ok_eq hbuy
    have h0 : Table.find? wMarket.listings "300001" = some wListing := rfl
    have hlw : listing = wListing := (Option.some.inj (h0.symm.trans hfx)).symm
    rw [hli, hlw, Table.find?_insert, if_pos rfl] at hf2
    have hl2 : l2 = boughtListing wListing 2 := (Option.some.inj hf2).symm
    rw [hl2]
    rfl


theorem Table.insert_self {α : Type} {t : Table α} {k : String} {v : α}
    (h : Table.find? t k = some v) : Table.insert t k v = t := by
  induction t with
  | nil => exact absurd h (by simp [Table.find?])
  | cons p rest ih =>
    obtain ⟨k2, v2⟩ := p
    by_cases h2 : k2 = k
    · subst h2
      simp only [Table.find?, if_pos rfl] at h
      rw [Option.some.inj h]
      simp [Table.insert]
    · simp only [Table.find?, if_neg h2] at h
      simp [Table.insert, h2, ih h]

/-- More concrete fixtures: the owner of `wListing`, and a state that also
holds an already-deleted listing. -/
def wOwner : User := ⟨"100001", "Owner", "pw"⟩

/-- A soft-deleted listing. -/
def wDeleted : Listing := ⟨"300002", "200002", "100001", 10, 1, false, true⟩

/-- A state holding one active listing and one deleted listing. -/
def wMarket2 : Marketplace :=
  ⟨[], [], [("300001", wListing), ("300002", wDeleted)], []⟩

/-- C3: `buy_listing` fails with NotFoundError (`listingNotFound`) exactly
when the listing id is not a key of the listings table; otherwise it fails
with UnavailableError (`listingNotAvailable`) exactly when the listing is
deleted, inactive, or out of stock; otherwise it fails with
ValidationError (`invalidQuantity`) exactly when the requested quantity is
≤ 0 or exceeds the remaining stock; and it succeeds in all remaining
cases. -/
theorem C3_buy_listing_errors (m : Marketplace) (oid : String) (buyer : User)
    (lid : String) (q : ℤ) :
    ((buy_listing m oid buyer lid q).1 = .error .listingNotFound ↔
      Table.find? m.listings lid = none) ∧
    (∀ l, Table.find? m.listings lid = some l →
      (((buy_listing m oid buyer lid q).1 = .error .listingNotAvailable) ↔
        (l.deleted = true ∨ l.active = false ∨ l.quantity ≤ 0)) ∧
      ((l.deleted = false ∧ l.active = true ∧ 0 < l.quantity) →
        ((((buy_listing m oid buyer lid q).1 = .error .invalidQuantity) ↔
          (q ≤ 0 ∨ l.quantity < q)) ∧
        ((0 < q ∧ q ≤ l.quantity) →
          ∃ o, (buy_listing m oid buyer lid q).1 = .ok o)))) := by
  cases hf : Table.find? m.listings lid with
  | none =>
    constructor
    · unfold buy_listing
      rw [hf]
      simp
    · intro l hl
      exact Option.noConfusion hl
  | some l0 =>
    constructor
    · unfold buy_listing
      rw [hf]
      dsimp only
      split_ifs with h1 h2 <;> simp [hf]
    · intro l hl
      have hll : l = l0 := (Option.some.inj hl).symm
      subst hll
      constructor
      · unfold buy_listing
        rw [hf]
        dsimp only
        split_ifs with h1 h2 <;> simp [h1]
      · intro hok
        constructor
        · unfold buy_listing
          rw [hf]
          dsimp only
          rw [if_neg (by simp [hok.1, hok.2.1]; omega)]
          split_ifs with h2 <;> simp [h2]
        · intro hq
          unfold buy_listing
          rw [hf]
          dsimp only
          rw [if_neg (by simp [hok.1, hok.2.1]; omega), if_neg (by omega)]
          exact ⟨_, rfl⟩

/-- Witness for C3: each failure mode and the success case at concrete
states. -/
theorem C3_buy_listing_errors_witness :
    (buy_listing wMarket "400001" wCarol "999999" 1).1 = .error .listingNotFound ∧
    (buy_listing wMarket2 "400001" wCarol "300002" 1).1 = .error .listingNotAvailable ∧
    (buy_listing wMarket "400001" wCarol "300001" 5).1 = .error .invalidQuantity ∧
    ∃ o, (buy_listing wMarket "400001" wCarol "300001" 2).1 = .ok o := by
  refine ⟨?_, ?_, ?_, ?_⟩
  · exact (C3_buy_listing_errors wMarket "400001" wCarol "999999" 1).1.mpr rfl
  · exact (((C3_buy_listing_errors wMarket2 "400001" wCarol "300002" 1).2
      wDeleted rfl).1).mpr (Or.inl rfl)
  · exact ((((C3_buy_listing_errors wMarket "400001" wCarol "300001" 5).2
      wListing rfl).2 ⟨rfl, rfl, by decide⟩).1).mpr (Or.inr (by decide))
  · exact (((C3_buy_listing_errors wMarket "400001" wCarol "300001" 2).2
      wListing rfl).2 ⟨rfl, rfl, by decide⟩).2 ⟨by decide, by decide⟩

/-- C5: `delete_listing` fails with NotFoundError (`listingNotFound`)
exactly when the id is unknown; fails with AuthorizationError (`notOwner`)
exactly when the caller is not the listing's seller, in which case the
whole state (in particular every field of the listing) is unchanged;
otherwise it sets `deleted = true` and `active = false` leaving the other
fields intact, and repeating the call as the owner on the already-deleted
listing succeeds again as an idempotent no-op. -/
theorem C5_delete_listing (m : Marketplace) (seller : User) (lid : String) :
    ((delete_listing m seller lid).1 = .error .listingNotFound ↔
      Table.find? m.listings lid = none) ∧
    (∀ l, Table.find? m.listings lid = some l →
      (((delete_listing m seller lid).1 = .error .notOwner) ↔
        l.seller_id ≠ seller.id) ∧
      (l.seller_id ≠ seller.id → (delete_listing m seller lid).2 = m) ∧
      (l.seller_id = seller.id →
        ∃ m2, delete_listing m seller lid = (.ok (), m2) ∧
          Table.find? m2.listings lid = some (deletedListing l) ∧
          (deletedListing l).deleted = true ∧ (deletedListing l).active = false ∧
          (deletedListing l).id = l.id ∧ (deletedListing l).item_id = l.item_id ∧
          (deletedListing l).seller_id = l.seller_id ∧
          (deletedListing l).price = l.price ∧
          (deletedListing l).quantity = l.quantity ∧
          delete_listing m2 seller lid = (.ok (), m2))) := by
  cases hf : Table.find? m.listings lid with
  | none =>
    constructor
    · unfold delete_listing
      rw [hf]
      simp
    · intro l hl
      exact Option.noConfusion hl
  | some l0 =>
    constructor
    · unfold delete_listing
      rw [hf]
      dsimp only
      split_ifs with h1 <;> simp [h1]
    · intro l hl
      have hll : l = l0 := (Option.some.inj hl).symm
      subst hll
      refine ⟨?_, ?_, ?_⟩
      · unfold delete_listing
        rw [hf]
        dsimp only
        split_ifs with h1 <;> simp [h1]
      · intro hne
        unfold delete_listing
        rw [hf]
        dsimp only
        rw [if_pos hne]
      · intro hown
        have hres : delete_listing m seller lid =
            (.ok (), ⟨m.users, m.items,
              Table.insert m.listings lid (deletedListing l), m.orders⟩) := by
          unfold delete_listing
          rw [hf]
          dsimp only
          rw [if_neg (by simp [hown])]
          rfl
        refine ⟨_, hres, ?_, rfl, rfl, rfl, rfl, rfl, rfl, rfl, ?_⟩
        · show Table.find? (Table.insert m.listings lid (deletedListing l)) lid = _
          rw [Table.find?_insert, if_pos rfl]
        · have hf2 : Table.find? (Table.insert m.listings lid (deletedListing l)) lid
              = some (deletedListing l) := by
            rw [Table.find?_insert, if_pos rfl]
          have hdd : deletedListing (deletedListing l) = deletedListing l := rfl
          unfold delete_listing
          dsimp only
          rw [hf2]
          dsimp only
          rw [if_neg (by simp [deletedListing, hown])]
          have hlit : Table.insert (Table.insert m.listings lid (deletedListing l)) lid
              (deletedListing (deletedListing l)) =
              Table.insert m.listings lid (deletedListing l) := by
            rw [hdd]
            exact Table.insert_self hf2
          exact congrArg (fun t => ((Except.ok (), ⟨m.users, m.items, t, m.orders⟩) :
            Except MarketError Unit × Marketplace)) hlit

/-- Witness for C5: unknown id, non-owner rejection with unchanged state,
and owner delete followed by an idempotent repeat, at concrete states. -/
theorem C5_delete_listing_witness :
    (delete_listing wMarket wOwner "999999").1 = .error .listingNotFound ∧
    (delete_listing wMarket wCarol "300001").1 = .error .notOwner ∧
    (delete_listing wMarket wCarol "300001").2 = wMarket ∧
    ∃ m2, delete_listing wMarket wOwner "300001" = (.ok (), m2) ∧
      Table.find? m2.listings "300001" = some (deletedListing wListing) ∧
      delete_listing m2 wOwner "300001" = (.ok (), m2) := by
  refine ⟨?_, ?_, ?_, ?_⟩
  · exact (C5_delete_listing wMarket wOwner "999999").1.mpr rfl
  · exact (((C5_delete_listing wMarket wCarol "300001").2 wListing rfl).1).mpr
      (by decide)
  · exact ((C5_delete_listing wMarket wCarol "300001").2 wListing rfl).2.1 (by decide)
  · obtain ⟨m2, h1, h2, _, _, _, _, _, _, _, h3⟩ :=
      ((C5_delete_listing wMarket wOwner "300001").2 wListing rfl).2.2 rfl
    exact ⟨m2, h1, h2, h3⟩


/-- C4: `register` fails with ValidationError (`emptyCredentials`) exactly
when the normalized (title-cased) username or the password is empty;
otherwise it fails with ConflictError (`usernameExists`) exactly when some
existing user's username matches the normalized username
case-insensitively; and otherwise it stores and returns a new user
carrying the normalized username, the exact password, and the generated
id, which `genId` guarantees was not previously a key of the users
table. -/
theorem C4_register (m : Marketplace) (uid username password : String) :
    ((register m uid username password).1 = .error .emptyCredentials ↔
      (title_case username = "" ∨ password = "")) ∧
    ((title_case username ≠ "" ∧ password ≠ "") →
      (((register m uid username password).1 = .error .usernameExists) ↔
        ∃ u ∈ Table.values m.users,
          lowerStr u.username = lowerStr (title_case username)) ∧
      ((∀ u ∈ Table.values m.users,
          lowerStr u.username ≠ lowerStr (title_case username)) →
        register m uid username password =
          (.ok ⟨uid, title_case username, password⟩,
           ⟨Table.insert m.users uid ⟨uid, title_case username, password⟩,
            m.items, m.listings, m.orders⟩))) ∧
    (genId m.users uid → uid ∉ Table.keys m.users) := by
  refine ⟨?_, ?_, fun hg => (Table.find?_eq_none_iff m.users uid).mp hg.2⟩
  · simp only [register]
    split_ifs with h1 h2 <;> simp [h1]
  · intro hne
    constructor
    · simp only [register]
      split_ifs with h1 h2
      · exact absurd h1 (by simp [hne.1, hne.2])
      · simp only [List.any_eq_true, beq_iff_eq] at h2
        simp [h2]
      · simp only [List.any_eq_true, beq_iff_eq] at h2
        simp [h2]
    · intro hall
      simp only [register]
      rw [if_neg (by simp [hne.1, hne.2])]
      rw [if_neg ?hc]
      case hc =>
        simp only [List.any_eq_true, beq_iff_eq]
        push_neg
        exact hall

/-- Witness for C4: empty username is rejected; registering `"alice"`
after `"Alice"` is rejected as a conflict; registering `"Alice"` in the
empty state succeeds and stores the title-cased username with the fresh
id. -/
theorem C4_register_witness :
    (register emptyMarketplace "100001" "   " "pw").1 = .error .emptyCredentials ∧
    register emptyMarketplace "100001" "Alice" "pw" =
      (.ok ⟨"100001", "Alice", "pw"⟩,
       ⟨[("100001", ⟨"100001", "Alice", "pw"⟩)], [], [], []⟩) ∧
    (register ⟨[("100001", ⟨"100001", "Alice", "pw"⟩)], [], [], []⟩
      "100002" "alice" "pw2").1 = .error .usernameExists := by
  refine ⟨?_, ?_, ?_⟩
  · exact (C4_register emptyMarketplace "100001" "   " "pw").1.mpr
      (Or.inl (by decide))
  · have h := ((C4_register emptyMarketplace "100001" "Alice" "pw").2.1
      ⟨by decide, by decide⟩).2 (by intro u hu; simp [emptyMarketplace, Table.values]
        at hu)
    rw [h]
    rfl
  · exact (((C4_register ⟨[("100001", ⟨"100001", "Alice", "pw"⟩)], [], [], []⟩
      "100002" "alice" "pw2").2.1 ⟨by decide, by decide⟩).1).mpr
      ⟨⟨"100001", "Alice", "pw"⟩, by simp [Table.values], by decide⟩


theorem round2_val (x : ℚ) (k : ℤ) (h : x * 100 = (k : ℚ)) (y : ℚ)
    (hy : (k : ℚ) / 100 = y) : round2 x = y := by
  rw [round2_eq_div x k h]
  exact hy

/-- C9: the suggestion triple is `(s, round2 (s * 0.9), round2 (s * 1.1))`
with `s = round2 (baseline * multiplier)`, where the baseline is the table
entry of the title-cased category falling back to the `"Others"` baseline,
and the multiplier is the table entry of the upper-cased condition falling
back to `0.65` (which is exactly the `"GOOD"` multiplier); in particular
`price_suggestion "Electronics" "NEW" = (300, 270, 330)` and an unknown
category behaves exactly like `"Others"`. -/
theorem C9_price_suggestion :
    (∀ c d, (price_suggestion c d).1 =
        round2 (((Table.find? CATEGORY_BASELINE (title_case c)).getD
            ((Table.find? CATEGORY_BASELINE "Others").getD 0)) *
          ((Table.find? CONDITION_MULTIPLIER (upperStr (stripStr d))).getD (13 / 20))) ∧
      (price_suggestion c d).2.1 = round2 ((price_suggestion c d).1 * (9 / 10)) ∧
      (price_suggestion c d).2.2 = round2 ((price_suggestion c d).1 * (11 / 10))) ∧
    (∀ c d, Table.find? CATEGORY_BASELINE (title_case c) = none →
      price_suggestion c d = price_suggestion "Others" d) ∧
    (∀ c d, Table.find? CONDITION_MULTIPLIER (upperStr (stripStr d)) = none →
      price_suggestion c d = price_suggestion c "GOOD") ∧
    Table.find? CONDITION_MULTIPLIER "GOOD" = some (13 / 20) ∧
    price_suggestion "Electronics" "NEW" = (300, 270, 330) ∧
    price_suggestion "Unknown" "NEW" = price_suggestion "Others" "NEW" := by
  refine ⟨fun c d => ⟨rfl, rfl, rfl⟩, ?_, ?_, rfl, ?_, rfl⟩
  · intro c d h
    unfold price_suggestion
    dsimp only
    rw [h]
    rfl
  · intro c d h
    unfold price_suggestion
    dsimp only
    rw [h]
    rfl
  · have e1 : round2 ((300 : ℚ) * 1) = 300 := round2_val _ 30000 (by norm_num) _
      (by norm_num)
    have hs : price_suggestion "Electronics" "NEW" =
        (round2 ((300 : ℚ) * 1), round2 (round2 ((300 : ℚ) * 1) * (9 / 10)),
         round2 (round2 ((300 : ℚ) * 1) * (11 / 10))) := rfl
    rw [hs, e1, round2_val ((300 : ℚ) * (9 / 10)) 27000 (by norm_num) 270 (by norm_num),
      round2_val ((300 : ℚ) * (11 / 10)) 33000 (by norm_num) 330 (by norm_num)]

/-- Witness for C9: the category fallback applied at the concrete unknown
category `"Unknown"` and the condition fallback at the concrete unknown
condition `"BROKEN"`. -/
theorem C9_price_suggestion_witness :
    price_suggestion "Unknown" "GOOD" = price_suggestion "Others" "GOOD" ∧
    price_suggestion "Electronics" "BROKEN" = price_suggestion "Electronics" "GOOD" := by
  constructor
  · exact (C9_price_suggestion).2.1 "Unknown" "GOOD" rfl
  · exact (C9_price_suggestion).2.2.1 "Electronics" "BROKEN" rfl

theorem roundHalfEven_tie_even {k : ℤ} (hk : k % 2 = 0) {x : ℚ}
    (h : x = (k : ℚ) + 1 / 2) : roundHalfEven x = k := by
  have hfl : ⌊x⌋ = k := by
    rw [h]
    rw [Int.floor_eq_iff]
    constructor
    · linarith
    · linarith
  unfold roundHalfEven
  rw [hfl, h]
  have hr : (k : ℚ) + 1 / 2 - (k : ℚ) = 1 / 2 := by ring
  rw [hr]
  rw [if_neg (by norm_num), if_neg (by norm_num), if_pos hk]

/-- C10: `post_listing` does not store the supplied price verbatim: the
created listing's price is `round2 price`, and there are valid inputs
(positive price with more than two decimal digits) on which
`round2 price ≠ price`, so the stored price differs from the supplied
one. -/
theorem C10_post_listing_rounds_price {m : Marketplace} {iid lid : String}
    {seller : User} {name category brand condition description : String} {price : ℚ}
    {quantity : ℤ} {l : Listing} {m2 : Marketplace}
    (h : post_listing m iid lid seller name category brand condition description
      price quantity = (.ok l, m2)) :
    l.price = round2 price ∧
    ∃ p : ℚ, 0 < p ∧ round2 p ≠ p := by
  obtain ⟨hl, _, _, _, _, _, _⟩ := post_listing_ok_eq h
  refine ⟨by rw [hl], ⟨10 + 5 / 1000, by norm_num, ?_⟩⟩
  have hr : round2 (10 + 5 / 1000) = 10 := by
    unfold round2
    rw [roundHalfEven_tie_even (k := 1000) (by norm_num) (by norm_num)]
    norm_num
  rw [hr]
  norm_num

/-- Witness for C10: posting a listing at price 10.005 succeeds and stores
price 10 (the half-even rounding of 10.005), not the supplied price. -/
theorem C10_post_listing_rounds_price_witness :
    ∃ l m2, post_listing emptyMarketplace "200001" "300001" wOwner "Iphone 8"
        "Electronics" "Apple" "NEW" "desc" (10 + 5 / 1000) 1 = (.ok l, m2) ∧
      l.price = round2 (10 + 5 / 1000) ∧ l.price = 10 ∧
      l.price ≠ 10 + 5 / 1000 := by
  have hr : round2 (10 + 5 / 1000) = 10 := by
    unfold round2
    rw [roundHalfEven_tie_even (k := 1000) (by norm_num) (by norm_num)]
    norm_num
  have hpost : post_listing emptyMarketplace "200001" "300001" wOwner "Iphone 8"
      "Electronics" "Apple" "NEW" "desc" (10 + 5 / 1000) 1 =
      (.ok ⟨"300001", "200001", wOwner.id, round2 (10 + 5 / 1000), 1, true, false⟩,
       ⟨[], [("200001", ⟨"200001", title_case "Iphone 8", "Electronics", "Apple",
          "NEW", title_case "desc"⟩)],
        [("300001", ⟨"300001", "200001", wOwner.id, round2 (10 + 5 / 1000), 1,
          true, false⟩)], []⟩) := by
    simp only [post_listing]
    rw [if_neg (by decide), if_neg (by decide), if_neg (by norm_num)]
    rfl
  obtain ⟨h1, _⟩ := C10_post_listing_rounds_price hpost
  refine ⟨_, _, hpost, h1, ?_, ?_⟩
  · rw [h1]
    exact hr
  · rw [h1, hr]
    norm_num


/-- A concrete item matching `wListing.item_id`, and a state where the
searches can find `wListing`. -/
def wItem : Item := ⟨"200001", "Iphone 8", "Electronics", "Apple", "GOOD", "Desc"⟩

/-- A state with one item and one active listing referencing it. -/
def wMarket3 : Marketplace := ⟨[], [("200001", wItem)], [("300001", wListing)], []⟩

/-- C6: `search_by_category` (respectively `search_by_full_name`) returns
exactly the listings that are not deleted, active, with positive
quantity, and whose item's category (respectively name) equals the
title-cased query; consequently, a purchase that brings a listing's
quantity to 0 removes it from both search results while its `deleted`
flag remains `false`. -/
theorem C6_search (m : Marketplace) (c n : String) :
    (∀ l, l ∈ search_by_category m c ↔
      ((∃ k, (k, l) ∈ m.listings) ∧ l.deleted = false ∧ l.active = true ∧
        0 < l.quantity ∧
        (Table.find? m.items l.item_id).map Item.category = some (title_case c))) ∧
    (∀ l, l ∈ search_by_full_name m n ↔
      ((∃ k, (k, l) ∈ m.listings) ∧ l.deleted = false ∧ l.active = true ∧
        0 < l.quantity ∧
        (Table.find? m.items l.item_id).map Item.name = some (title_case n))) ∧
    (∀ oid buyer lid q o m2 l,
      Table.find? m.listings lid = some l →
      buy_listing m oid buyer lid q = (.ok o, m2) →
      q = l.quantity →
      ∃ l2, Table.find? m2.listings lid = some l2 ∧ l2.deleted = false ∧
        l2 ∉ search_by_category m2 c ∧ l2 ∉ search_by_full_name m2 n) := by
  refine ⟨?_, ?_, ?_⟩
  · intro l
    unfold search_by_category
    rw [List.mem_filter]
    constructor
    · rintro ⟨hmem, hpred⟩
      simp only [Bool.and_eq_true, Bool.not_eq_true', decide_eq_true_eq,
        beq_iff_eq] at hpred
      simp only [Table.values, List.mem_map] at hmem
      obtain ⟨p, hp, hpl⟩ := hmem
      exact ⟨⟨p.1, by rw [← hpl]; exact hp⟩, hpred.1.1.1, hpred.1.1.2,
        hpred.1.2, hpred.2⟩
    · rintro ⟨⟨k, hk⟩, h1, h2, h3, h4⟩
      refine ⟨?_, ?_⟩
      · simp only [Table.values, List.mem_map]
        exact ⟨(k, l), hk, rfl⟩
      · simp only [Bool.and_eq_true, Bool.not_eq_true', decide_eq_true_eq,
          beq_iff_eq]
        exact ⟨⟨⟨h1, h2⟩, h3⟩, h4⟩
  · intro l
    unfold search_by_full_name
    rw [List.mem_filter]
    constructor
    · rintro ⟨hmem, hpred⟩
      simp only [Bool.and_eq_true, Bool.not_eq_true', decide_eq_true_eq,
        beq_iff_eq] at hpred
      simp only [Table.values, List.mem_map] at hmem
      obtain ⟨p, hp, hpl⟩ := hmem
      exact ⟨⟨p.1, by rw [← hpl]; exact hp⟩, hpred.1.1.1, hpred.1.1.2,
        hpred.1.2, hpred.2⟩
    · rintro ⟨⟨k, hk⟩, h1, h2, h3, h4⟩
      refine ⟨?_, ?_⟩
      · simp only [Table.values, List.mem_map]
        exact ⟨(k, l), hk, rfl⟩
      · simp only [Bool.and_eq_true, Bool.not_eq_true', decide_eq_true_eq,
          beq_iff_eq]
        exact ⟨⟨⟨h1, h2⟩, h3⟩, h4⟩
  · intro oid buyer lid q o m2 l hf hbuy hq
    obtain ⟨listing, hf2, hdel, hact, hq0, hq1, hq2, ho, hus, hit, hor, hli⟩ :=
      buy_listing_ok_eq hbuy
    rw [hf] at hf2
    have hll : listing = l := (Option.some.inj hf2).symm
    subst hll
    refine ⟨boughtListing listing q, ?_, hdel, ?_, ?_⟩
    · rw [hli, Table.find?_insert, if_pos rfl]
    · intro hmem
      unfold search_by_category at hmem
      rw [List.mem_filter] at hmem
      have hpred := hmem.2
      simp only [Bool.and_eq_true, Bool.not_eq_true', decide_eq_true_eq] at hpred
      have : (0 : ℤ) < listing.quantity - q := hpred.1.2
      omega
    · intro hmem
      unfold search_by_full_name at hmem
      rw [List.mem_filter] at hmem
      have hpred := hmem.2
      simp only [Bool.and_eq_true, Bool.not_eq_true', decide_eq_true_eq] at hpred
      have : (0 : ℤ) < listing.quantity - q := hpred.1.2
      omega

/-- Witness for C6: in a concrete state the active listing is found by
category and by (case-insensitively entered) full name; after buying all
of its stock it is gone from both searches while `deleted` is still
`false`. -/
theorem C6_search_witness :
    wListing ∈ search_by_category wMarket3 "electronics" ∧
    wListing ∈ search_by_full_name wMarket3 "iPHONE 8" ∧
    ∃ l2 m2 o, buy_listing wMarket3 "400001" wCarol "300001" 2 = (.ok o, m2) ∧
      Table.find? m2.listings "300001" = some l2 ∧ l2.deleted = false ∧
      l2 ∉ search_by_category m2 "electronics" ∧
      l2 ∉ search_by_full_name m2 "iPHONE 8" := by
  have hbuy : buy_listing wMarket3 "400001" wCarol "300001" 2 =
      (.ok (madeOrder "400001" wCarol wListing 2),
       ⟨wMarket3.users, wMarket3.items,
        Table.insert wMarket3.listings "300001" (boughtListing wListing 2),
        Table.insert wMarket3.orders "400001"
          (madeOrder "400001" wCarol wListing 2)⟩) := rfl
  refine ⟨?_, ?_, ?_⟩
  · exact ((C6_search wMarket3 "electronics" "iPHONE 8").1 wListing).mpr
      ⟨⟨"300001", by simp [wMarket3]⟩, rfl, rfl, by decide, by decide⟩
  · exact ((C6_search wMarket3 "electronics" "iPHONE 8").2.1 wListing).mpr
      ⟨⟨"300001", by simp [wMarket3]⟩, rfl, rfl, by decide, by decide⟩
  · obtain ⟨l2, hf2, hdel, hnc, hnn⟩ :=
      (C6_search wMarket3 "electronics" "iPHONE 8").2.2 "400001" wCarol "300001" 2
        (madeOrder "400001" wCarol wListing 2) _ wListing rfl hbuy rfl
    exact ⟨l2, _, _, hbuy, hf2, hdel, hnc, hnn⟩


/-! ### A concrete reachable trace: register, post, then delete or buy -/

/-- The listing created by the concrete post (price stored as `round2 250`). -/
def wListing250 : Listing := ⟨"300001", "200001", "100001", round2 250, 2, true, false⟩

/-- The item created by the concrete post. -/
def wItemG : Item := ⟨"200001", "Iphone 8", "Electronics", "Apple", "GOOD", "Desc"⟩

/-- State after registering the owner. -/
def wS1 : Marketplace := ⟨[("100001", wOwner)], [], [], []⟩

/-- State after the owner posts the iPhone listing. -/
def wS2 : Marketplace :=
  ⟨[("100001", wOwner)], [("200001", wItemG)], [("300001", wListing250)], []⟩

/-- State after the owner soft-deletes the listing. -/
def wS3 : Marketplace :=
  ⟨[("100001", wOwner)], [("200001", wItemG)],
   [("300001", deletedListing wListing250)], []⟩

/-- State after a buyer purchases the full stock instead. -/
def wS4 : Marketplace :=
  ⟨[("100001", wOwner)], [("200001", wItemG)],
   [("300001", boughtListing wListing250 2)],
   [("400001", madeOrder "400001" wCarol wListing250 2)]⟩

theorem step_empty_wS1 : Step emptyMarketplace wS1 :=
  Step.step_register emptyMarketplace "100001" "Owner" "pw" wOwner wS1
    ⟨⟨100001, by norm_num, by norm_num, by decide⟩, rfl⟩ rfl

theorem step_wS1_wS2 : Step wS1 wS2 :=
  Step.step_post wS1 "200001" "300001" wOwner "Iphone 8" "Electronics" "Apple"
    "GOOD" "desc" 250 2 wListing250 wS2
    ⟨⟨200001, by norm_num, by norm_num, by decide⟩, rfl⟩
    ⟨⟨300001, by norm_num, by norm_num, by decide⟩, rfl⟩ rfl

theorem step_wS2_wS3 : Step wS2 wS3 :=
  Step.step_delete wS2 wOwner "300001" wS3 rfl

theorem step_wS2_wS4 : Step wS2 wS4 :=
  Step.step_buy wS2 "400001" wCarol "300001" 2
    (madeOrder "400001" wCarol wListing250 2) wS4
    ⟨⟨400001, by norm_num, by norm_num, by decide⟩, rfl⟩ rfl

theorem wS2_reachable : Reachable wS2 :=
  Relation.ReflTransGen.tail
    (Relation.ReflTransGen.single step_empty_wS1) step_wS1_wS2

theorem wS3_reachable : Reachable wS3 :=
  Relation.ReflTransGen.tail wS2_reachable step_wS2_wS3

/-- C2: every failing `buy_listing` call returns the state unchanged (all
four tables), and along any finite sequence of successful operations from
a reachable state, the total quantity recorded by the orders created
against one listing (the `sold` difference) never exceeds the stock the
listing had at the start of the sequence — the running identity
`sold + quantity = const` together with `0 ≤ quantity` is preserved, so
purchases can never exceed the original stock. -/
theorem C2_no_oversell :
    (∀ m m2 oid buyer lid q e,
      buy_listing m oid buyer lid q = (.error e, m2) → m2 = m) ∧
    (∀ m, Reachable m → ∀ m2, Steps m m2 → ∀ lid l,
      Table.find? m.listings lid = some l → 0 ≤ l.quantity →
      ∃ l2, Table.find? m2.listings lid = some l2 ∧
        sold m2.orders lid - sold m.orders lid ≤ l.quantity ∧
        sold m2.orders lid + l2.quantity = sold m.orders lid + l.quantity ∧
        0 ≤ l2.quantity) := by
  constructor
  · intro m m2 oid buyer lid q e h
    exact buy_listing_error_state h
  · intro m hr m2 hst lid l hf hq
    obtain ⟨l2, hf2, heq, hq2⟩ := steps_conservation (wf_reachable hr) hst hf hq
    exact ⟨l2, hf2, by omega, heq, hq2⟩

/-- Witness for C2: an over-quantity purchase attempt fails and leaves the
concrete state untouched, and after selling the whole stock of the posted
listing the sold total equals (hence does not exceed) the original
stock. -/
theorem C2_no_oversell_witness :
    (buy_listing wMarket "400001" wCarol "300001" 5).2 = wMarket ∧
    ∃ l2, Table.find? wS4.listings "300001" = some l2 ∧
      sold wS4.orders "300001" - sold wS2.orders "300001" ≤ wListing250.quantity ∧
      sold wS4.orders "300001" + l2.quantity
        = sold wS2.orders "300001" + wListing250.quantity ∧
      0 ≤ l2.quantity := by
  constructor
  · have h : buy_listing wMarket "400001" wCarol "300001" 5 =
        (.error .invalidQuantity, (buy_listing wMarket "400001" wCarol "300001" 5).2) :=
      rfl
    exact C2_no_oversell.1 wMarket _ "400001" wCarol "300001" 5 .invalidQuantity h
  · exact C2_no_oversell.2 wS2 wS2_reachable wS4
      (Relation.ReflTransGen.single step_wS2_wS4) "300001" wListing250 rfl (by decide)

/-- C7: in every state reachable from the initial empty state, a listing
with `deleted = true` also has `active = false`, and once a listing is
deleted it stays deleted after any further sequence of operations — no
transition leaves the DELETED state. -/
theorem C7_deleted_terminal (m : Marketplace) (hr : Reachable m) :
    (∀ p ∈ m.listings, p.2.deleted = true → p.2.active = false) ∧
    (∀ m2, Steps m m2 → ∀ lid l, Table.find? m.listings lid = some l →
      l.deleted = true →
      ∃ l2, Table.find? m2.listings lid = some l2 ∧ l2.deleted = true) :=
  ⟨deletedInactive_reachable hr,
   fun _ hst _ _ hf hd => steps_deleted_terminal hst hf hd⟩

/-- Witness for C7: the reachable state in which the posted listing was
soft-deleted satisfies both conclusions concretely. -/
theorem C7_deleted_terminal_witness :
    (deletedListing wListing250).active = false ∧
    ∃ l2, Table.find? wS3.listings "300001" = some l2 ∧ l2.deleted = true := by
  obtain ⟨h1, h2⟩ := C7_deleted_terminal wS3 wS3_reachable
  refine ⟨h1 ("300001", deletedListing wListing250) (by simp [wS3]) rfl, ?_⟩
  exact h2 wS3 Relation.ReflTransGen.refl "300001" (deletedListing wListing250) rfl rfl

/-- C8: for every state reachable through the controller operations,
writing the full snapshot (`save_all_csv`) and reading it back
(`load_all_csv`) reproduces the same four tables field-for-field: every
user, item, listing and order survives `to_row` serialization followed by
`from_row` parsing unchanged. -/
theorem C8_save_load_roundtrip (m : Marketplace) (h : Reachable m) :
    load_all_csv (save_all_csv m) = m := by
  have hwf := wf_reachable h
  show (⟨load_users (save_users m.users), load_items (save_items m.items),
    load_listings (save_listings m.listings), load_orders (save_orders m.orders)⟩ :
    Marketplace) = m
  rw [load_users_save _ hwf.users_keys.1 hwf.users_keys.2,
    load_items_save _ hwf.items_keys.1 hwf.items_keys.2,
    load_listings_save _ hwf.listings_keys.1 hwf.listings_keys.2
      (fun p hp => ⟨(hwf.listings_fields p hp).1, (hwf.listings_fields p hp).2.1⟩),
    load_orders_save _ hwf.orders_keys.1 hwf.orders_keys.2 hwf.orders_fields]

/-- Witness for C8: the round-trip at the concrete reachable state that
holds a user, an item and a listing. -/
theorem C8_save_load_roundtrip_witness :
    load_all_csv (save_all_csv wS2) = wS2 :=
  C8_save_load_roundtrip wS2 wS2_reachable

end Mkt
